import Mathlib

/-!
Formal model of the ingestion core of the `brapi_sqlmodel_boilerplate`
repository: the retrying HTTP transport (`app/core/http.py`), the cache-key
derivation (`app/services/utils/key.py`), the timestamp normalization and
OHLCV upsert pipeline (`app/services/ohlcv_service.py`), the catalog merge
and pagination logic (`app/services/catalog_service.py`), and the upstream
client (`app/services/brapi_client.py`).  Each Python function is embedded
as an executable Lean definition; network and database effects are made
explicit (oracles for responses, lists for stored rows, traces for issued
requests).
-/

/-! ## Python string semantics helpers -/

/-- Characters for which Python `str.isspace()` is true (the characters
stripped by `str.strip()` with no arguments). -/
def pyIsSpace (c : Char) : Bool :=
  c = ' ' ∨ c = '\t' ∨ c = '\n' ∨ c = '\r' ∨ c = '\x0b' ∨ c = '\x0c' ∨
  c = '\x1c' ∨ c = '\x1d' ∨ c = '\x1e' ∨ c = '\x1f' ∨ c = '\x85' ∨ c = '\xa0' ∨
  c = ' ' ∨ (0x2000 ≤ c.toNat ∧ c.toNat ≤ 0x200a) ∨
  c = ' ' ∨ c = ' ' ∨ c = ' ' ∨ c = ' ' ∨ c = '　'

/-- Python `str.strip()`: drop leading and trailing whitespace. -/
def pyStrip (s : String) : String :=
  String.mk (((s.toList.dropWhile pyIsSpace).reverse.dropWhile pyIsSpace).reverse)

/-- Python `str.upper()` (ASCII range, which covers ticker symbols). -/
def pyUpper (s : String) : String := String.mk (s.toList.map Char.toUpper)

/-- Python `str.lower()` (ASCII range). -/
def pyLower (s : String) : String := String.mk (s.toList.map Char.toLower)

/-- Python truthiness of an optional string (`None` and `""` are falsy). -/
def pyTruthyStr : Option String → Bool
  | Option.none => false
  | some s => !s.isEmpty

/-- Python `needle in haystack` on the underlying character lists. -/
def pyContains (haystack needle : String) : Bool :=
  decide (needle.toList <:+: haystack.toList)

/-! ## Cache key derivation (`app/services/utils/key.py`)

`make_cache_key(prefix, *parts)` JSON-serializes each dict part with
`sort_keys=True, separators=(",", ":")`, joins all normalized parts with
`"::"`, and combines a human-readable segment with the first 16 hex
characters of the SHA-256 digest. -/

/-- Key-order relation used by `json.dumps(..., sort_keys=True)`:
dictionary entries are compared by their key. -/
def keyLE (a b : String × String) : Prop := a.1 ≤ b.1

instance : DecidableRel keyLE := fun a b => inferInstanceAs (Decidable (a.1 ≤ b.1))

instance : IsTotal (String × String) keyLE := ⟨fun a b => le_total a.1 b.1⟩

instance : IsTrans (String × String) keyLE := ⟨fun _ _ _ h h2 => le_trans h h2⟩

/-- Hex digit for a nibble. -/
def hexDigit (n : Nat) : Char :=
  if n < 10 then Char.ofNat (48 + n) else Char.ofNat (87 + n)

/-- Fixed-width lowercase hex rendering (`w` nibbles, most significant first). -/
def hexNat (w n : Nat) : String :=
  String.mk ((List.range w).reverse.map (fun i => hexDigit (n / 16 ^ i % 16)))

/-- JSON escaping of one character as performed by `json.dumps` with the
default `ensure_ascii=True`. -/
def jsonEscapeChar (c : Char) : String :=
  if c = '"' then "\\\""
  else if c = '\\' then "\\\\"
  else if c = '\n' then "\\n"
  else if c = '\t' then "\\t"
  else if c = '\r' then "\\r"
  else if c = '\x08' then "\\b"
  else if c = '\x0c' then "\\f"
  else if c.toNat < 0x20 then "\\u" ++ hexNat 4 c.toNat
  else if c.toNat ≤ 0x7e then String.mk [c]
  else if c.toNat ≤ 0xffff then "\\u" ++ hexNat 4 c.toNat
  else
    let v := c.toNat - 0x10000
    "\\u" ++ hexNat 4 (0xd800 + v / 0x400) ++ "\\u" ++ hexNat 4 (0xdc00 + v % 0x400)

/-- JSON rendering of a string literal. -/
def jsonString (s : String) : String :=
  "\"" ++ String.join (s.toList.map jsonEscapeChar) ++ "\""

/-- `json.dumps(d, sort_keys=True, separators=(",", ":"))` for a dict of
string keys and string values. -/
def json_dumps_sorted (entries : List (String × String)) : String :=
  "\x7b" ++
    ",".intercalate ((List.insertionSort keyLE entries).map
      (fun kv => jsonString kv.1 ++ ":" ++ jsonString kv.2)) ++
  "\x7d"

/-- A `*parts` argument of `make_cache_key`: `str | dict`. -/
inductive KeyPart where
  | s (v : String)
  | d (entries : List (String × String))

/-- Normalization of one part: dicts are serialized canonically, strings pass
through `str`. -/
def normPart : KeyPart → String
  | KeyPart.s v => v
  | KeyPart.d e => json_dumps_sorted e

/-! SHA-256, as used through `hashlib.sha256(...).hexdigest()`. -/

/-- Truncation to a 32-bit word. -/
def w32 (n : Nat) : Nat := n % 4294967296

/-- 32-bit right rotation. -/
def rotr32 (n x : Nat) : Nat := w32 ((x >>> n) ||| (x <<< (32 - n)))

/-- SHA-256 round constants (FIPS 180-4, in decimal). -/
def shaK : List Nat :=
  [1116352408, 1899447441, 3049323471, 3921009573,
   961987163, 1508970993, 2453635748, 2870763221,
   3624381080, 310598401, 607225278, 1426881987,
   1925078388, 2162078206, 2614888103, 3248222580,
   3835390401, 4022224774, 264347078, 604807628,
   770255983, 1249150122, 1555081692, 1996064986,
   2554220882, 2821834349, 2952996808, 3210313671,
   3336571891, 3584528711, 113926993, 338241895,
   666307205, 773529912, 1294757372, 1396182291,
   1695183700, 1986661051, 2177026350, 2456956037,
   2730485921, 2820302411, 3259730800, 3345764771,
   3516065817, 3600352804, 4094571909, 275423344,
   430227734, 506948616, 659060556, 883997877,
   958139571, 1322822218, 1537002063, 1747873779,
   1955562222, 2024104815, 2227730452, 2361852424,
   2428436474, 2756734187, 3204031479, 3329325298]

/-- SHA-256 initial hash state (in decimal). -/
def shaH0 : List Nat :=
  [1779033703, 3144134277, 1013904242, 2773480762,
   1359893119, 2600822924, 528734635, 1541459225]

/-- Big-endian rendering of `n` as `w` bytes. -/
def natToBytesBE (w n : Nat) : List Nat :=
  (List.range w).reverse.map (fun i => n / 256 ^ i % 256)

/-- SHA-256 message padding. -/
def shaPad (msg : List Nat) : List Nat :=
  let L := msg.length
  let padZeros := (119 - L % 64) % 64
  msg ++ [0x80] ++ List.replicate padZeros 0 ++ natToBytesBE 8 (8 * L)

/-- Split into chunks of 64 bytes (fuel-driven). -/
def chunksGo : Nat → List Nat → List (List Nat)
  | 0, _ => []
  | _, [] => []
  | fuel + 1, l => l.take 64 :: chunksGo fuel (l.drop 64)

/-- Split a byte list into chunks of 64 bytes. -/
def chunks64 (l : List Nat) : List (List Nat) := chunksGo l.length l

/-- Group 4 bytes (big-endian) into one 32-bit word. -/
def bytesToWords : List Nat → List Nat
  | b0 :: b1 :: b2 :: b3 :: rest =>
      (((b0 * 256 + b1) * 256 + b2) * 256 + b3) :: bytesToWords rest
  | _ => []

/-- Extend the 16-word schedule to 64 words. -/
def shaExtend : Nat → Array Nat → Array Nat
  | 0, a => a
  | k + 1, a =>
    let n := a.size
    let w16 := a.getD (n - 16) 0
    let w15 := a.getD (n - 15) 0
    let w7 := a.getD (n - 7) 0
    let w2 := a.getD (n - 2) 0
    let s0 := (rotr32 7 w15) ^^^ (rotr32 18 w15) ^^^ (w15 >>> 3)
    let s1 := (rotr32 17 w2) ^^^ (rotr32 19 w2) ^^^ (w2 >>> 10)
    shaExtend k (a.push (w32 (w16 + s0 + w7 + s1)))

/-- One SHA-256 compression round. -/
def shaRound (st : List Nat) (kw : Nat × Nat) : List Nat :=
  match st with
  | [a, b, c, d, e, f, g, h] =>
    let S1 := (rotr32 6 e) ^^^ (rotr32 11 e) ^^^ (rotr32 25 e)
    let ch := (e &&& f) ^^^ ((4294967295 - e) &&& g)
    let temp1 := w32 (h + S1 + ch + kw.1 + kw.2)
    let S0 := (rotr32 2 a) ^^^ (rotr32 13 a) ^^^ (rotr32 22 a)
    let maj := (a &&& b) ^^^ (a &&& c) ^^^ (b &&& c)
    let temp2 := w32 (S0 + maj)
    [w32 (temp1 + temp2), a, b, c, w32 (d + temp1), e, f, g]
  | other => other

/-- Process one 64-byte chunk. -/
def shaChunk (h : List Nat) (chunk : List Nat) : List Nat :=
  let ws := (shaExtend 48 (Array.mk (bytesToWords chunk))).toList
  let st := (shaK.zip ws).foldl shaRound h
  (h.zip st).map (fun p => w32 (p.1 + p.2))

/-- SHA-256 digest of a byte list, as eight 32-bit words. -/
def sha256Words (msg : List Nat) : List Nat :=
  (chunks64 (shaPad msg)).foldl shaChunk shaH0

/-- `hashlib.sha256(s.encode()).hexdigest()`. -/
def sha256hex (s : String) : String :=
  String.join ((sha256Words (s.toUTF8.toList.map UInt8.toNat)).map (hexNat 8))

/-- `make_cache_key` from `app/services/utils/key.py`. -/
def make_cache_key (pfx : String) (parts : List KeyPart) : String :=
  let norm := parts.map normPart
  let digest_source := "::".intercalate norm
  let digest := (sha256hex digest_source).take 16
  let human_part := "::".intercalate (norm.take 3)
  pfx ++ ":" ++ human_part ++ ":" ++ digest

/-! ## Retrying transport (`app/core/http.py`)

`send_request_with_retry` drives a tenacity `AsyncRetrying` loop:
transport errors and `RetryableHTTPStatusError` (raised for statuses
429/500/502/503/504) are retried up to `max_attempts` (default 4) with
`reraise=True`; any other non-2xx status raises `HTTPStatusError` from
`raise_for_status` and is terminal; a 2xx response is returned. -/

/-- What the network yields on one attempt (attempt numbers start at 1). -/
inductive SendOutcome where
  | transportError (msg : String)
  | status (code : Nat)
deriving DecidableEq, Repr

/-- The exceptions `send_request_with_retry` can surface. -/
inductive SendError where
  | transport (msg : String)
  | retryableStatus (code : Nat)
  | httpStatus (code : Nat)
  | loopExhausted
deriving DecidableEq, Repr

/-- Statuses promoted to `RetryableHTTPStatusError`. -/
def retryableCodes : List Nat := [429, 500, 502, 503, 504]

/-- `httpx` success statuses (2xx), the ones `raise_for_status` passes. -/
def isSuccessCode (c : Nat) : Bool := 200 ≤ c && c < 300

/-- Classification of a single attempt: retryable statuses raise
`RetryableHTTPStatusError`, 2xx is returned, anything else raises
`HTTPStatusError`. -/
def attemptResult (o : SendOutcome) : Except SendError Nat :=
  match o with
  | SendOutcome.transportError m => Except.error (SendError.transport m)
  | SendOutcome.status c =>
    if c ∈ retryableCodes then Except.error (SendError.retryableStatus c)
    else if isSuccessCode c then Except.ok c
    else Except.error (SendError.httpStatus c)

/-- The tenacity retry predicate: `retry_if_exception_type((TransportError,
RetryableHTTPStatusError))`. -/
def isRetryableError : SendError → Bool
  | SendError.transport _ => true
  | SendError.retryableStatus _ => true
  | SendError.httpStatus _ => false
  | SendError.loopExhausted => false

/-- The retry loop from attempt number `attempt` with `remaining` attempts
left; returns the final result together with the number of the attempt on
which the loop stopped. -/
def sendFrom (source : Nat → SendOutcome) (attempt : Nat) :
    Nat → Except SendError Nat × Nat
  | 0 => (Except.error SendError.loopExhausted, attempt - 1)
  | r + 1 =>
    match attemptResult (source attempt) with
    | Except.ok c => (Except.ok c, attempt)
    | Except.error e =>
      if isRetryableError e then
        if r = 0 then (Except.error e, attempt)
        else sendFrom source (attempt + 1) r
      else (Except.error e, attempt)

/-- `send_request_with_retry` over an abstract response source; the second
component is the number of attempts that were actually sent. -/
def send_request_with_retry (source : Nat → SendOutcome)
    (max_attempts : Nat := 4) : Except SendError Nat × Nat :=
  sendFrom source 1 max_attempts

/-! ## Timestamp normalization (`app/services/ohlcv_service.py`)

`_parse_timestamp` returns `None` for `None`, otherwise applies Python
`int()` (so ISO-8601 strings raise `ValueError`, which is caught and
mapped to `None`), and interprets the integer as milliseconds when it
exceeds `1e12` and as seconds otherwise.  The canonical instant is
represented here in epoch milliseconds; `datetime.fromtimestamp(_,
tz=timezone.utc)` raises (caught `ValueError`) outside the year 1–9999
datetime range. -/

/-- A value that may appear in the `"date"` field of a historical data
point: JSON null, an integer, or a string. -/
inductive TsVal where
  | nul
  | int (n : Int)
  | str (s : String)
deriving DecidableEq, Repr

/-- Digits of a Python integer literal after the first digit: digits with
single underscores allowed between digits. -/
def pyDigitsCore : List Char → Nat → Option Nat
  | [], acc => some acc
  | '_' :: c :: cs, acc =>
      if c.isDigit then pyDigitsCore cs (acc * 10 + (c.toNat - 48)) else Option.none
  | ['_'], _ => Option.none
  | c :: cs, acc =>
      if c.isDigit then pyDigitsCore cs (acc * 10 + (c.toNat - 48)) else Option.none

/-- Python `int(s)` for a string: optional surrounding whitespace, optional
sign, decimal digits (with `_` separators); anything else raises
`ValueError` (`Option.none`). -/
def pyIntOfString (s : String) : Option Int :=
  match (pyStrip s).toList with
  | '+' :: c :: cs =>
      if c.isDigit then (pyDigitsCore cs (c.toNat - 48)).map Int.ofNat else Option.none
  | '-' :: c :: cs =>
      if c.isDigit then (pyDigitsCore cs (c.toNat - 48)).map (fun n => -(Int.ofNat n))
      else Option.none
  | c :: cs =>
      if c.isDigit then (pyDigitsCore cs (c.toNat - 48)).map Int.ofNat else Option.none
  | [] => Option.none

/-- Python `int(ts)` for the payload value (`TypeError`/`ValueError` map to
`Option.none`). -/
def pyIntConv : TsVal → Option Int
  | TsVal.nul => Option.none
  | TsVal.int n => some n
  | TsVal.str s => pyIntOfString s

/-- Smallest instant representable by `datetime` (0001-01-01T00:00 UTC), in
epoch milliseconds. -/
def datetimeMinMs : Int := -62135596800000

/-- Largest whole-millisecond instant representable by `datetime`
(9999-12-31T23:59:59.999 UTC), in epoch milliseconds. -/
def datetimeMaxMs : Int := 253402300799999

/-- `_parse_timestamp`: the canonical UTC instant in epoch milliseconds, or
`Option.none` when the record should be dropped. -/
def parse_timestamp (ts : TsVal) : Option Int :=
  match ts with
  | TsVal.nul => Option.none
  | _ =>
    match pyIntConv ts with
    | Option.none => Option.none
    | some n =>
      let ms : Int := if n > 10 ^ 12 then n else n * 1000
      if datetimeMinMs ≤ ms ∧ ms ≤ datetimeMaxMs then some ms else Option.none

/-! ## Quote payloads

A brapi quote-style JSON payload, as far as the ingestion core inspects it:
optional `"results"` / `"stocks"` entity arrays (`ε` is the entity shape)
and the shared metadata keys merged by `BrapiClient.quote` (`μ` is the
metadata value shape). -/

structure BrapiPayload (ε μ : Type) where
  results : Option (List ε)
  stocks : Option (List ε)
  requestedAt : Option μ
  usedRange : Option μ
  usedInterval : Option μ
  fromCache : Option μ
  took : Option μ
deriving DecidableEq, Repr

/-- Python `payload.get("results") or payload.get("stocks") or []`:
the first truthy (present and non-empty) list, else the empty list. -/
def pyOrList {α : Type} (a b : Option (List α)) : List α :=
  match a with
  | some (x :: xs) => x :: xs
  | _ =>
    match b with
    | some (y :: ys) => y :: ys
    | _ => []

/-! ## OHLCV extraction and upsert (`app/services/ohlcv_service.py`)

`δ` is the (opaque) shape of the numeric fields copied verbatim from a
historical data point into a `QuoteOHLCV` row. -/

/-- One entry of `"historicalDataPrice"`. -/
structure DataPoint (δ : Type) where
  date : TsVal
  open_ : δ
  high : δ
  low : δ
  close : δ
  volume : δ
  adjClose : δ
deriving DecidableEq, Repr

/-- One item of the quote payload's entity array, as far as
`_extract_ohlcv_from_quote` reads it. -/
structure QuoteItem (δ : Type) where
  historicalDataPrice : Option (List (DataPoint δ))
deriving DecidableEq, Repr

/-- A `quote_ohlcv` row (`app/models/catalog.py`), minus the
storage-assigned `id`; `date` is the canonical instant in epoch
milliseconds; `raw` is the snapshot of the source data point. -/
structure QuoteOHLCV (δ : Type) where
  ticker : String
  date : Int
  open_ : δ
  high : δ
  low : δ
  close : δ
  volume : δ
  adj_close : δ
  raw : DataPoint δ
deriving DecidableEq, Repr

/-- `_extract_ohlcv_from_quote`: walk the entity array, drop data points
whose timestamp does not normalize, build rows. -/
def extract_ohlcv_from_quote {δ μ : Type} (payload : BrapiPayload (QuoteItem δ) μ)
    (ticker : String) : List (QuoteOHLCV δ) :=
  (pyOrList payload.results payload.stocks).flatMap (fun item =>
    (item.historicalDataPrice.getD []).filterMap (fun dp =>
      (parse_timestamp dp.date).map (fun d =>
        { ticker := pyStrip (pyUpper ticker)
          date := d
          open_ := dp.open_
          high := dp.high
          low := dp.low
          close := dp.close
          volume := dp.volume
          adj_close := dp.adjClose
          raw := dp })))

/-- The composite identity `(ticker, date)` the upsert is keyed on. -/
def barKey {δ : Type} (b : QuoteOHLCV δ) : String × Int := (b.ticker, b.date)

/-- In-place update of an existing row: every non-key column is overwritten
with the incoming row's value. -/
def setBarFields {δ : Type} (r b : QuoteOHLCV δ) : QuoteOHLCV δ :=
  { r with
    open_ := b.open_
    high := b.high
    low := b.low
    close := b.close
    volume := b.volume
    adj_close := b.adj_close
    raw := b.raw }

/-- Is a row with this `(ticker, date)` key present? -/
def hasBar {δ : Type} (db : List (QuoteOHLCV δ)) (k : String × Int) : Bool :=
  db.any (fun r => barKey r = k)

/-- One upsert: update the existing `(ticker, date)` row in place, or append
the new row.  The second component records whether an insert happened. -/
def upsertBar {δ : Type} (db : List (QuoteOHLCV δ)) (b : QuoteOHLCV δ) :
    List (QuoteOHLCV δ) × Bool :=
  if hasBar db (barKey b) then
    (db.map (fun r => if barKey r = barKey b then setBarFields r b else r), false)
  else (db ++ [b], true)

/-- The statistics record returned by the time-series synchronizer. -/
structure Stats where
  processed : Nat
  inserted : Nat
  updated : Nat
  errors : Nat
  total_requested : Nat
deriving DecidableEq, Repr

/-- The per-date upsert loop of `_process_ticker_ohlcv`, threading the
statistics record. -/
def upsertBars {δ : Type} (db : List (QuoteOHLCV δ)) (bars : List (QuoteOHLCV δ))
    (s : Stats) : List (QuoteOHLCV δ) × Stats :=
  bars.foldl
    (fun acc b =>
      let r := upsertBar acc.1 b
      (r.1,
        if r.2 then { acc.2 with inserted := acc.2.inserted + 1 }
        else { acc.2 with updated := acc.2.updated + 1 }))
    (db, s)

/-- The final outcome of `_fetch_quote_with_semaphore` for one ticker, after
its internal retries: a payload, a `brapi.NotFoundError`, or another
exception carrying an optional `response.status_code` and its text. -/
inductive FetchOutcome (δ μ : Type) where
  | success (payload : BrapiPayload (QuoteItem δ) μ)
  | notFound (msg : String)
  | failure (statusCode : Option Nat) (msg : String)

/-- `_process_ticker_ohlcv`: fetch, extract, upsert; a `NotFoundError` (or a
404-looking failure) counts as processed and is skipped; any other failure
increments `errors`; the batch is never aborted. -/
def process_ticker_ohlcv {δ μ : Type} (db : List (QuoteOHLCV δ)) (ticker : String)
    (outcome : FetchOutcome δ μ) (s : Stats) : List (QuoteOHLCV δ) × Stats :=
  match outcome with
  | FetchOutcome.success payload =>
    let ohlcv_list := extract_ohlcv_from_quote payload ticker
    if ohlcv_list.isEmpty then (db, { s with processed := s.processed + 1 })
    else
      let r := upsertBars db ohlcv_list s
      (r.1, { r.2 with processed := r.2.processed + 1 })
  | FetchOutcome.notFound _ => (db, { s with processed := s.processed + 1 })
  | FetchOutcome.failure statusCode msg =>
    if statusCode = some 404 ∨ pyContains msg "404" then
      (db, { s with processed := s.processed + 1 })
    else (db, { s with errors := s.errors + 1 })

/-- `backfill_ohlcv` over an abstract per-ticker fetch oracle: process the
tickers sequentially against the stored rows `db`. -/
def backfill_ohlcv {δ μ : Type} (oracle : String → FetchOutcome δ μ)
    (tickers : List String) (db : List (QuoteOHLCV δ)) :
    List (QuoteOHLCV δ) × Stats :=
  let stats : Stats :=
    { processed := 0, inserted := 0, updated := 0, errors := 0,
      total_requested := tickers.length }
  if tickers.isEmpty then (db, stats)
  else
    tickers.foldl (fun acc t => process_ticker_ohlcv acc.1 t (oracle t) acc.2)
      (db, stats)

/-! ## Catalog merge and pagination (`app/services/catalog_service.py`) -/

/-- An `assets` row (`app/models/catalog.py`), minus the storage-assigned
`id` and `created_at`; `raw` is a JSON object modelled as an association
list; `updated_at` is an abstract clock value. -/
structure Asset where
  ticker : String
  name : Option String
  type : Option String
  sector : Option String
  segment : Option String
  isin : Option String
  logo_url : Option String
  raw : Option (List (String × String))
  updated_at : Nat
deriving DecidableEq, Repr

/-- `_has_value`: `None` is empty, a string is non-empty iff it strips to a
non-empty string. -/
def has_value : Option String → Bool
  | Option.none => false
  | some s => !(pyStrip s).isEmpty

/-- The existing-row merge block of `sync_assets` (lines 244-260): each
mutable field is assigned from the candidate only when `_has_value` holds;
`raw` is replaced only by a non-empty dict; `updated_at` is refreshed to
the current clock `now`. -/
def mergeAsset (existing incoming : Asset) (now : Nat) : Asset :=
  { existing with
    name := if has_value incoming.name then incoming.name else existing.name
    type := if has_value incoming.type then incoming.type else existing.type
    sector := if has_value incoming.sector then incoming.sector else existing.sector
    segment := if has_value incoming.segment then incoming.segment else existing.segment
    isin := if has_value incoming.isin then incoming.isin else existing.isin
    logo_url := if has_value incoming.logo_url then incoming.logo_url else existing.logo_url
    raw :=
      match incoming.raw with
      | some (p :: ps) => some (p :: ps)
      | _ => existing.raw
    updated_at := now }

/-- The pagination metadata of one catalog listing page. -/
structure PagePayload where
  hasNextPage : Option Bool
  currentPage : Option Int
  totalPages : Option Int
deriving DecidableEq, Repr

/-- Python `bool(x)` for an optional JSON boolean (`bool(None) = False`). -/
def pyBoolOpt : Option Bool → Bool
  | Option.none => false
  | some b => b

/-- The page-advance computation of `sync_assets` (lines 286-290):
`has_more = bool(payload.get("hasNextPage"))`.  The source's subsequent
`if has_more is None: has_more = current_page < total_pages` branch can
never fire, because `bool()` always returns a boolean, so the computed
fallback is unreachable. -/
def has_more_code (p : PagePayload) : Bool :=
  let has_more := pyBoolOpt p.hasNextPage
  has_more

/-- Modelled from the spec: the intended page-advance rule — use the
explicit `hasNextPage` flag when the payload carries one, otherwise
compute continuation from `currentPage < totalPages` when both counts are
present.  This is what the dead fallback branch of `sync_assets` was
written to do. -/
def has_more_spec (p : PagePayload) : Bool :=
  match p.hasNextPage with
  | some b => b
  | Option.none =>
    match p.currentPage, p.totalPages with
    | some c, some t => decide (c < t)
    | _, _ => false

/-- Whether `sync_assets` fetches another page after handling one page:
it breaks when the page yielded no candidate assets, and otherwise
continues iff `has_more` is true. -/
def sync_continues {α : Type} (p : PagePayload) (assets : List α) : Bool :=
  if assets.isEmpty then false else has_more_code p

/-! ## Upstream client (`app/services/brapi_client.py`)

Query parameters are an insertion-ordered dict of string keys; values may
be strings or integers (`page`, `pageSize`). -/

/-- A query-parameter value. -/
inductive PVal where
  | str (s : String)
  | int (n : Int)
deriving DecidableEq, Repr

/-- An insertion-ordered dict of query parameters. -/
abbrev Params : Type := List (String × PVal)

/-- Python dict assignment `d[k] = v`: overwrite in place, or append. -/
def dictSet (d : Params) (k : String) (v : PVal) : Params :=
  if d.any (fun kv => kv.1 = k) then
    d.map (fun kv => if kv.1 = k then (k, v) else kv)
  else d ++ [(k, v)]

/-- Python `d.pop(k, None)`: remove the key if present. -/
def dictPop (d : Params) (k : String) : Params := d.filter (fun kv => kv.1 ≠ k)

/-- Membership of a key in a parameter dict. -/
def dictHasKey (d : Params) (k : String) : Bool := d.any (fun kv => kv.1 = k)

/-- Python `",".join(xs)`. -/
def joinComma (xs : List String) : String := ",".intercalate xs

/-- `BrapiClient._build_params`: start from a copy of `base`, set
`range` / `interval` / `dividends` when given, and set `fundamental` /
`modules` only when `allow_modules` is true (`modules` also requires a
non-empty list). -/
def build_params (base : Option Params) (range interval : Option String)
    (dividends fundamental : Option Bool) (modules : Option (List String))
    (allow_modules : Bool) : Params :=
  let params := base.getD []
  let params := match range with
    | some r => dictSet params "range" (PVal.str r)
    | Option.none => params
  let params := match interval with
    | some i => dictSet params "interval" (PVal.str i)
    | Option.none => params
  let params := match dividends with
    | some true => dictSet params "dividends" (PVal.str "true")
    | some false => dictSet params "dividends" (PVal.str "false")
    | Option.none => params
  let fundamental_flag : Option String := match fundamental with
    | some true => some "true"
    | some false => some "false"
    | Option.none => Option.none
  let params := match fundamental_flag with
    | some f => if allow_modules then dictSet params "fundamental" (PVal.str f) else params
    | Option.none => params
  let params := match modules with
    | some (m :: ms) =>
      if allow_modules then dictSet params "modules" (PVal.str (joinComma (m :: ms)))
      else params
    | _ => params
  params

/-- The client state: the resolved bearer token (`api_key or
settings.brapi_token`) and the `PLAN_FREE` flag. -/
structure BrapiClientS where
  api_key : Option String
  plan_free : Bool

/-- The plan-tier resolution at the top of `BrapiClient.quote`. -/
def is_free_plan (c : BrapiClientS) (plan : Option String) : Bool :=
  match plan with
  | some p => pyLower p = "free"
  | Option.none => c.plan_free

/-- `[t.strip().upper() for t in tickers if t and t.strip()]`. -/
def normalize_tickers (tickers : List String) : List String :=
  (tickers.filter (fun t => !(pyStrip t).isEmpty)).map (fun t => pyUpper (pyStrip t))

/-- One upstream quote request issued by the client. -/
inductive QuoteRequest where
  | single (ticker : String) (params : Params)
  | batch (tickers : List String) (params : Params)
deriving DecidableEq

/-- The entity array the merge loop reads from one payload. -/
def entityList {ε μ : Type} (p : BrapiPayload ε μ) : List ε :=
  pyOrList p.results p.stocks

/-- `{"results": []}`: the early return for an empty ticker list. -/
def emptyResultsPayload (ε μ : Type) : BrapiPayload ε μ :=
  { results := some [], stocks := Option.none, requestedAt := Option.none,
    usedRange := Option.none, usedInterval := Option.none,
    fromCache := Option.none, took := Option.none }

/-- One step of the merge loop of `BrapiClient.quote`: extend the merged
entity array, and set each shared metadata key only when the payload has
it and the aggregate does not yet. -/
def mergeStep {ε μ : Type} (agg p : BrapiPayload ε μ) : BrapiPayload ε μ :=
  { results := some ((agg.results.getD []) ++ entityList p)
    stocks := agg.stocks
    requestedAt := match agg.requestedAt with
      | some v => some v
      | Option.none => p.requestedAt
    usedRange := match agg.usedRange with
      | some v => some v
      | Option.none => p.usedRange
    usedInterval := match agg.usedInterval with
      | some v => some v
      | Option.none => p.usedInterval
    fromCache := match agg.fromCache with
      | some v => some v
      | Option.none => p.fromCache
    took := match agg.took with
      | some v => some v
      | Option.none => p.took }

/-- The merge loop of `BrapiClient.quote` over all per-request payloads. -/
def merge_quote_payloads {ε μ : Type} (ps : List (BrapiPayload ε μ)) :
    BrapiPayload ε μ :=
  ps.foldl mergeStep (emptyResultsPayload ε μ)

/-- `BrapiClient.quote` over an abstract fetch oracle.  Returns the payload
handed back to the caller together with the trace of upstream requests
issued (each of which acquires one rate-limiter permit in the source). -/
def quote {ε μ : Type} (c : BrapiClientS) (fetch : QuoteRequest → BrapiPayload ε μ)
    (tickers : List String) (base : Option Params) (range interval : Option String)
    (dividends fundamental : Option Bool) (modules : Option (List String))
    (plan : Option String) : BrapiPayload ε μ × List QuoteRequest :=
  let tickers_list := normalize_tickers tickers
  if tickers_list.isEmpty then (emptyResultsPayload ε μ, [])
  else
    let free := is_free_plan c plan
    let effective_params :=
      build_params base range interval dividends fundamental modules (!free)
    let effective_params :=
      if free then dictPop (dictPop effective_params "fundamental") "modules"
      else effective_params
    let reqs : List QuoteRequest :=
      if !free && tickers_list.length > 1 then
        [QuoteRequest.batch tickers_list effective_params]
      else tickers_list.map (fun t => QuoteRequest.single t effective_params)
    let responses := reqs.map fetch
    match responses with
    | [r] => (r, reqs)
    | _ => (merge_quote_payloads responses, reqs)

/-! ## Credential-gated request path (`BrapiClient._request_json`) -/

/-- The observable side effects of `_request_json`, in order. -/
inductive ClientEffect where
  | acquirePermit (resource : String)
  | sendRequest (path : String) (params : Params)
deriving DecidableEq

/-- Errors surfaced by `_request_json`: the fail-fast `ValueError` for a
missing token, or whatever the retrying transport finally raised. -/
inductive ClientError where
  | configError (msg : String)
  | httpError (e : SendError)
deriving DecidableEq

/-- Python `part.strip("/")`. -/
def stripSlashes (s : String) : String :=
  String.mk (((s.toList.dropWhile (fun c => c = '/')).reverse.dropWhile
    (fun c => c = '/')).reverse)

/-- `BrapiClient._v2_path`. -/
def v2_path (segments : List String) : String :=
  let cleaned := "/".intercalate ((segments.filter (fun p => !p.isEmpty)).map stripSlashes)
  if cleaned.isEmpty then "/api/v2" else "/api/v2/" ++ cleaned

/-- `BrapiClient._request_json` over an abstract transport: when
`require_token` holds and the client has no truthy token, raise the
configuration `ValueError` before acquiring a rate-limiter permit or
sending anything; otherwise acquire the permit for `resource`, send, and
return the payload (`π`) or the transport's final error. -/
def request_json {π : Type} (c : BrapiClientS)
    (net : String → Params → Except SendError π) (path : String) (params : Params)
    (resource : String) (require_token : Bool) :
    Except ClientError π × List ClientEffect :=
  if require_token && !(pyTruthyStr c.api_key) then
    (Except.error (ClientError.configError "BRAPI_TOKEN não configurado para este endpoint."),
      [])
  else
    let effects := [ClientEffect.acquirePermit resource,
                    ClientEffect.sendRequest path params]
    match net path params with
    | Except.ok p => (Except.ok p, effects)
    | Except.error e => (Except.error (ClientError.httpError e), effects)

/-- `BrapiClient.crypto` (requires the token). -/
def crypto {π : Type} (c : BrapiClientS) (net : String → Params → Except SendError π)
    (coins : List String) (currency : String) :
    Except ClientError π × List ClientEffect :=
  let params : Params :=
    [("coin", PVal.str (joinComma coins)), ("currency", PVal.str currency)]
  request_json c net (v2_path ["crypto"]) params "crypto" true

/-- The optional-`search` parameter dict shared by the availability
probes. -/
def searchParams (search : Option String) : Params :=
  match search with
  | some s => if !s.isEmpty then [("search", PVal.str s)] else []
  | Option.none => []

/-- `BrapiClient.currency_available` (requires the token). -/
def currency_available {π : Type} (c : BrapiClientS)
    (net : String → Params → Except SendError π) (search : Option String) :
    Except ClientError π × List ClientEffect :=
  request_json c net (v2_path ["currency", "available"]) (searchParams search)
    "currency_available" true

/-- `BrapiClient.crypto_available` (requires the token). -/
def crypto_available {π : Type} (c : BrapiClientS)
    (net : String → Params → Except SendError π) (search : Option String) :
    Except ClientError π × List ClientEffect :=
  request_json c net (v2_path ["crypto", "available"]) (searchParams search)
    "crypto_available" true

/-- `BrapiClient.inflation_available` (requires the token). -/
def inflation_available {π : Type} (c : BrapiClientS)
    (net : String → Params → Except SendError π) (search : Option String) :
    Except ClientError π × List ClientEffect :=
  request_json c net (v2_path ["inflation", "available"]) (searchParams search)
    "inflation_available" true

/-- `BrapiClient.prime_rate_available` (requires the token). -/
def prime_rate_available {π : Type} (c : BrapiClientS)
    (net : String → Params → Except SendError π) (search : Option String) :
    Except ClientError π × List ClientEffect :=
  request_json c net (v2_path ["prime-rate", "available"]) (searchParams search)
    "prime_rate_available" true

/-- The parameter dict built by `BrapiClient.quote_list`: string filters are
included when truthy, `page` / `pageSize` when not `None`. -/
def quote_list_params (type sector search sort_by : Option String)
    (page page_size : Option Int) : Params :=
  let params : Params := []
  let params := match type with
    | some t => if !t.isEmpty then dictSet params "type" (PVal.str t) else params
    | Option.none => params
  let params := match sector with
    | some t => if !t.isEmpty then dictSet params "sector" (PVal.str t) else params
    | Option.none => params
  let params := match search with
    | some t => if !t.isEmpty then dictSet params "search" (PVal.str t) else params
    | Option.none => params
  let params := match sort_by with
    | some t => if !t.isEmpty then dictSet params "sortBy" (PVal.str t) else params
    | Option.none => params
  let params := match page with
    | some n => dictSet params "page" (PVal.int n)
    | Option.none => params
  let params := match page_size with
    | some n => dictSet params "pageSize" (PVal.int n)
    | Option.none => params
  params

/-- `BrapiClient.quote_list` (the catalog listing; requires the token). -/
def quote_list {π : Type} (c : BrapiClientS)
    (net : String → Params → Except SendError π)
    (type sector search sort_by : Option String) (page page_size : Option Int) :
    Except ClientError π × List ClientEffect :=
  request_json c net "/api/quote/list"
    (quote_list_params type sector search sort_by page page_size) "quote_list" true

/-- First-some (`a if a is not None else b`), the shape of the
first-seen-wins metadata merge. -/
def optOr {μ : Type} (a b : Option μ) : Option μ :=
  match a with
  | some v => some v
  | Option.none => b

/-- The first present value in a list of optional values. -/
def firstSome {μ : Type} : List (Option μ) → Option μ
  | [] => Option.none
  | a :: rest => optOr a (firstSome rest)

/-- A concrete fetch oracle used to exercise the free-plan fan-out. -/
def fanoutFetchW : QuoteRequest → BrapiPayload Nat Nat := fun req =>
  match req with
  | QuoteRequest.single "PETR4" _ =>
    { results := some [1, 2], stocks := Option.none, requestedAt := some 11,
      usedRange := Option.none, usedInterval := some 7,
      fromCache := Option.none, took := Option.none }
  | QuoteRequest.single "VALE3" _ =>
    { results := some [3], stocks := Option.none, requestedAt := some 22,
      usedRange := some 5, usedInterval := some 8,
      fromCache := Option.none, took := some 9 }
  | _ => emptyResultsPayload Nat Nat

/-- The rows-only projection of the per-date upsert loop. -/
def upsertList {δ : Type} (db : List (QuoteOHLCV δ)) (bars : List (QuoteOHLCV δ)) :
    List (QuoteOHLCV δ) :=
  bars.foldl (fun d b => (upsertBar d b).1) db

/-- The bar list one ticker's fetch outcome contributes to storage. -/
def barsOf {δ μ : Type} (outcome : FetchOutcome δ μ) (ticker : String) :
    List (QuoteOHLCV δ) :=
  match outcome with
  | FetchOutcome.success payload => extract_ohlcv_from_quote payload ticker
  | FetchOutcome.notFound _ => []
  | FetchOutcome.failure _ _ => []

/-- All bars a backfill run upserts, in processing order. -/
def allBars {δ μ : Type} (oracle : String → FetchOutcome δ μ)
    (tickers : List String) : List (QuoteOHLCV δ) :=
  tickers.flatMap (fun t => barsOf (oracle t) t)

/-- Two row lists of the same shape whose entries have pointwise equal keys
and agree on every row whose key differs from `k`. -/
def SameKeyAgree {δ : Type} (k : String × Int) (d d2 : List (QuoteOHLCV δ)) : Prop :=
  List.Forall₂ (fun r r2 => barKey r = barKey r2 ∧ (barKey r ≠ k → r = r2)) d d2

/-- Every row of `d` whose key is `k` equals `b`. -/
def KeyRowsAre {δ : Type} (k : String × Int) (b : QuoteOHLCV δ)
    (d : List (QuoteOHLCV δ)) : Prop :=
  ∀ r ∈ d, barKey r = k → r = b

/-- Componentwise addition of statistics records. -/
def addStats (a b : Stats) : Stats :=
  { processed := a.processed + b.processed, inserted := a.inserted + b.inserted,
    updated := a.updated + b.updated, errors := a.errors + b.errors,
    total_requested := a.total_requested + b.total_requested }

/-- A concrete data point used to exercise the backfill embedding. -/
def dpW : DataPoint Nat :=
  { date := TsVal.int 1705123200, open_ := 1, high := 2, low := 3, close := 4,
    volume := 5, adjClose := 6 }

/-- A concrete per-ticker fetch oracle: two good tickers, one not-found
ticker, one ticker failing with a 500. -/
def oracleW : String → FetchOutcome Nat Nat := fun t =>
  if t = "BAD" then FetchOutcome.notFound "ticker not available"
  else if t = "ERR" then FetchOutcome.failure (some 500) "boom"
  else
    FetchOutcome.success
      { results := some [{ historicalDataPrice := some [dpW] }],
        stocks := Option.none, requestedAt := Option.none,
        usedRange := Option.none, usedInterval := Option.none,
        fromCache := Option.none, took := Option.none }

/-- The sequential per-ticker fold inside `backfill_ohlcv`, named. -/
def backfillFold {δ μ : Type} (oracle : String → FetchOutcome δ μ)
    (tickers : List String) (p : List (QuoteOHLCV δ) × Stats) :
    List (QuoteOHLCV δ) × Stats :=
  tickers.foldl (fun acc t => process_ticker_ohlcv acc.1 t (oracle t) acc.2) p

/-! ## Theorems -/

/-- Two key-sorted association lists that are permutations of each other and
have no duplicate keys are equal. -/
theorem eq_of_perm_sorted_nodupkeys :
    ∀ (l1 l2 : List (String × String)), l1.Perm l2 → l1.Sorted keyLE →
      l2.Sorted keyLE → (l1.map Prod.fst).Nodup → l1 = l2 := by
  intro l1
  induction l1 with
  | nil =>
    intro l2 h _ _ _
    exact (h.symm.eq_nil).symm
  | cons a t ih =>
    intro l2 h hs1 hs2 hnd
    cases l2 with
    | nil => exact absurd h.eq_nil (by simp)
    | cons b t2 =>
      have hab : a = b := by
        by_contra hne
        have hat2 : a ∈ t2 := by
          have ha2 : a ∈ b :: t2 := h.subset (List.mem_cons_self a t)
          rcases List.mem_cons.mp ha2 with h1 | h1
          · exact absurd h1 hne
          · exact h1
        have hbt : b ∈ t := by
          have hb1 : b ∈ a :: t := h.symm.subset (List.mem_cons_self b t2)
          rcases List.mem_cons.mp hb1 with h1 | h1
          · exact absurd h1.symm hne
          · exact h1
        have hle1 : keyLE a b := (List.sorted_cons.mp hs1).1 b hbt
        have hle2 : keyLE b a := (List.sorted_cons.mp hs2).1 a hat2
        have hkey : a.1 = b.1 := le_antisymm hle1 hle2
        have hmem : a.1 ∈ t.map Prod.fst := by
          rw [hkey]
          exact List.mem_map_of_mem Prod.fst hbt
        have hnotin : a.1 ∉ t.map Prod.fst := by
          rw [List.map_cons, List.nodup_cons] at hnd
          exact hnd.1
        exact hnotin hmem
      subst hab
      have ht : t.Perm t2 := h.cons_inv
      have : t = t2 := by
        apply ih t2 ht (hs1.of_cons) (hs2.of_cons)
        rw [List.map_cons, List.nodup_cons] at hnd
        exact hnd.2
      rw [this]

/-- C3: cache-key derivation is deterministic and parameter-order
independent.  For every prefix, subject, and parameter dictionary (an
association list with no duplicate keys), `make_cache_key` yields the same
key for any insertion order of the dictionary's entries. -/
theorem make_cache_key_order_independent (pfx subject : String)
    (p1 p2 : List (String × String)) (hperm : p1.Perm p2)
    (hnodup : (p1.map Prod.fst).Nodup) :
    make_cache_key pfx [KeyPart.s subject, KeyPart.d p1] =
      make_cache_key pfx [KeyPart.s subject, KeyPart.d p2] := by
  have hsort : List.insertionSort keyLE p1 = List.insertionSort keyLE p2 := by
    apply eq_of_perm_sorted_nodupkeys
    · exact (List.perm_insertionSort keyLE p1).trans
        (hperm.trans (List.perm_insertionSort keyLE p2).symm)
    · exact List.sorted_insertionSort keyLE p1
    · exact List.sorted_insertionSort keyLE p2
    · exact (((List.perm_insertionSort keyLE p1).map Prod.fst).nodup_iff).mpr hnodup
  have hjson : json_dumps_sorted p1 = json_dumps_sorted p2 := by
    unfold json_dumps_sorted
    rw [hsort]
  simp [make_cache_key, normPart, hjson]

/-- Witness for C3: the spec's own instance,
`derive_key("quote","PETR4",{"range":"3mo","interval":"1d"})` equals the
key with the parameters inserted in the opposite order. -/
theorem make_cache_key_order_independent_witness :
    make_cache_key "quote"
        [KeyPart.s "PETR4", KeyPart.d [("range", "3mo"), ("interval", "1d")]] =
      make_cache_key "quote"
        [KeyPart.s "PETR4", KeyPart.d [("interval", "1d"), ("range", "3mo")]] :=
  make_cache_key_order_independent "quote" "PETR4"
    [("range", "3mo"), ("interval", "1d")] [("interval", "1d"), ("range", "3mo")]
    (by decide) (by decide)

/-- C5: the retrying transport retries exactly the retryable class
(transport failures and statuses 429/500/502/503/504) and nothing else;
any other status is terminal on the first attempt (2xx returned, others
raised); and a source that always returns 503 is attempted exactly
`max_attempts` (default 4) times before the last error propagates. -/
theorem retry_classification_and_ceiling (source : Nat → SendOutcome)
    (m : String) (c : Nat) :
    isRetryableError (SendError.transport m) = true ∧
    (attemptResult (SendOutcome.status c) =
        Except.error (SendError.retryableStatus c) ↔
      c = 429 ∨ c = 500 ∨ c = 502 ∨ c = 503 ∨ c = 504) ∧
    (source 1 = SendOutcome.status c → c ∉ retryableCodes →
      send_request_with_retry source 4 =
        (if isSuccessCode c then Except.ok c
         else Except.error (SendError.httpStatus c), 1)) ∧
    ((∀ k, source k = SendOutcome.status 503) →
      send_request_with_retry source 4 =
        (Except.error (SendError.retryableStatus 503), 4)) := by
  refine ⟨rfl, ?_, ?_, ?_⟩
  · constructor
    · intro h
      by_cases hc : c ∈ retryableCodes
      · simpa [retryableCodes] using hc
      · by_cases hs : isSuccessCode c <;> simp [attemptResult, hc, hs] at h
    · intro h
      have hc : c ∈ retryableCodes := by simpa [retryableCodes] using h
      simp [attemptResult, hc]
  · intro hsrc hc
    by_cases hs : isSuccessCode c <;>
      simp [send_request_with_retry, sendFrom, hsrc, attemptResult, hc, hs,
        isRetryableError]
  · intro hsrc
    have hc : (503 : Nat) ∈ retryableCodes := by simp [retryableCodes]
    simp [send_request_with_retry, sendFrom, hsrc, attemptResult, hc,
      isRetryableError]

/-- Witness for C5: an always-503 source is attempted exactly 4 times and
the `RetryableHTTPStatusError` propagates; a 404 source is terminal on the
first attempt. -/
theorem retry_classification_and_ceiling_witness :
    send_request_with_retry (fun _ => SendOutcome.status 503) 4 =
      (Except.error (SendError.retryableStatus 503), 4) ∧
    send_request_with_retry (fun _ => SendOutcome.status 404) 4 =
      (Except.error (SendError.httpStatus 404), 1) := by
  constructor
  · exact (retry_classification_and_ceiling (fun _ => SendOutcome.status 503)
      "" 503).2.2.2 (fun _ => rfl)
  · have h := (retry_classification_and_ceiling (fun _ => SendOutcome.status 404)
      "" 404).2.2.1 rfl (by decide)
    simpa using h

/-- C4: the catalog merge never blanks a populated field.  Each mutable
field of the merged row takes the candidate's value exactly when
`_has_value` holds for it (the value is neither `None` nor
whitespace-only), and keeps the existing value otherwise; `_has_value` is
characterized in the last conjunct. -/
theorem merge_never_blanks (existing incoming : Asset) (now : Nat) :
    ((mergeAsset existing incoming now).name =
      if has_value incoming.name then incoming.name else existing.name) ∧
    ((mergeAsset existing incoming now).type =
      if has_value incoming.type then incoming.type else existing.type) ∧
    ((mergeAsset existing incoming now).sector =
      if has_value incoming.sector then incoming.sector else existing.sector) ∧
    ((mergeAsset existing incoming now).segment =
      if has_value incoming.segment then incoming.segment else existing.segment) ∧
    ((mergeAsset existing incoming now).isin =
      if has_value incoming.isin then incoming.isin else existing.isin) ∧
    ((mergeAsset existing incoming now).logo_url =
      if has_value incoming.logo_url then incoming.logo_url else existing.logo_url) ∧
    ((mergeAsset existing incoming now).ticker = existing.ticker) ∧
    (incoming.sector = Option.none ∨ incoming.sector = some "" →
      (mergeAsset existing incoming now).sector = existing.sector) ∧
    (∀ v : Option String,
      has_value v = true ↔ ∃ s, v = some s ∧ (pyStrip s).isEmpty = false) := by
  refine ⟨rfl, rfl, rfl, rfl, rfl, rfl, rfl, ?_, ?_⟩
  · intro h
    have hv : has_value incoming.sector = false := by
      rcases h with h | h <;> rw [h] <;> decide
    simp [mergeAsset, hv]
  · intro v
    cases v with
    | none => simp [has_value]
    | some s =>
      simp only [has_value, Bool.not_eq_true']
      constructor
      · intro h
        exact ⟨s, rfl, by simpa using h⟩
      · rintro ⟨s2, hs2, h⟩
        cases hs2
        simpa using h

/-- Witness for C4: the spec's example — an existing row with
`sector="Energy"` merged with a candidate whose `sector` is `None` keeps
`sector="Energy"`. -/
theorem merge_never_blanks_witness :
    (mergeAsset
        { ticker := "PETR4", name := some "Petrobras", type := some "stock",
          sector := some "Energy", segment := Option.none, isin := Option.none,
          logo_url := Option.none, raw := Option.none, updated_at := 0 }
        { ticker := "PETR4", name := some "Petrobras PN", type := Option.none,
          sector := Option.none, segment := Option.none, isin := Option.none,
          logo_url := Option.none, raw := Option.none, updated_at := 0 }
        7).sector = some "Energy" := by
  have h := (merge_never_blanks
    { ticker := "PETR4", name := some "Petrobras", type := some "stock",
      sector := some "Energy", segment := Option.none, isin := Option.none,
      logo_url := Option.none, raw := Option.none, updated_at := 0 }
    { ticker := "PETR4", name := some "Petrobras PN", type := Option.none,
      sector := Option.none, segment := Option.none, isin := Option.none,
      logo_url := Option.none, raw := Option.none, updated_at := 0 }
    7).2.2.2.2.2.2.2.1 (Or.inl rfl)
  exact h

/-- C7: the catalog synchronizer's page-advance decision.  The code's
`has_more` is exactly `bool(payload.get("hasNextPage"))`: it does continue
on an explicit true flag and it does stop on a page with zero candidates,
but when the flag is absent the `currentPage < totalPages` fallback is
unreachable (at `currentPage=1, totalPages=3` with no flag the code stops
while the intended rule continues). -/
theorem pagination_fallback_unreachable :
    (∀ p : PagePayload, has_more_code p = pyBoolOpt p.hasNextPage) ∧
    has_more_code
        { hasNextPage := Option.none, currentPage := some 1,
          totalPages := some 3 } = false ∧
    has_more_spec
        { hasNextPage := Option.none, currentPage := some 1,
          totalPages := some 3 } = true ∧
    sync_continues
        { hasNextPage := Option.none, currentPage := some 1,
          totalPages := some 3 } [(0 : Nat)] = false ∧
    (∀ (p : PagePayload) (assets : List Nat), assets ≠ [] →
      p.hasNextPage = some true → sync_continues p assets = true) ∧
    (∀ p : PagePayload, sync_continues p ([] : List Nat) = false) := by
  refine ⟨fun p => rfl, rfl, rfl, rfl, ?_, fun p => rfl⟩
  intro p assets hne hflag
  cases assets with
  | nil => exact absurd rfl hne
  | cons a rest => simp [sync_continues, has_more_code, pyBoolOpt, hflag]

/-- Witness for C7's universally quantified parts at concrete inputs: an
explicit true flag continues, an empty candidate page stops. -/
theorem pagination_fallback_unreachable_witness :
    sync_continues
        { hasNextPage := some true, currentPage := some 1, totalPages := some 3 }
        [(0 : Nat)] = true ∧
    sync_continues
        { hasNextPage := some true, currentPage := some 1, totalPages := some 3 }
        ([] : List Nat) = false := by
  constructor
  · exact pagination_fallback_unreachable.2.2.2.2.1
      { hasNextPage := some true, currentPage := some 1, totalPages := some 3 }
      [(0 : Nat)] (by simp) rfl
  · exact pagination_fallback_unreachable.2.2.2.2.2
      { hasNextPage := some true, currentPage := some 1, totalPages := some 3 }

/-- C9: every credential-gated resource method (crypto, the catalog listing
`quote_list`, and the availability probes) raises the configuration
`ValueError` when the client has no truthy API token, with an empty effect
trace: no rate-limiter permit is acquired and no request is sent (hence
the retrying transport never runs, so the error is never retried). -/
theorem gated_methods_fail_fast {π : Type} (c : BrapiClientS)
    (net : String → Params → Except SendError π)
    (hkey : pyTruthyStr c.api_key = false)
    (coins : List String) (cur : String) (search : Option String)
    (type sector search2 sort_by : Option String) (page page_size : Option Int) :
    crypto c net coins cur =
      (Except.error (ClientError.configError
        "BRAPI_TOKEN não configurado para este endpoint."), []) ∧
    currency_available c net search =
      (Except.error (ClientError.configError
        "BRAPI_TOKEN não configurado para este endpoint."), []) ∧
    crypto_available c net search =
      (Except.error (ClientError.configError
        "BRAPI_TOKEN não configurado para este endpoint."), []) ∧
    inflation_available c net search =
      (Except.error (ClientError.configError
        "BRAPI_TOKEN não configurado para este endpoint."), []) ∧
    prime_rate_available c net search =
      (Except.error (ClientError.configError
        "BRAPI_TOKEN não configurado para este endpoint."), []) ∧
    quote_list c net type sector search2 sort_by page page_size =
      (Except.error (ClientError.configError
        "BRAPI_TOKEN não configurado para este endpoint."), []) := by
  refine ⟨?_, ?_, ?_, ?_, ?_, ?_⟩ <;>
    simp [crypto, currency_available, crypto_available, inflation_available,
      prime_rate_available, quote_list, request_json, hkey]

/-- Witness for C9: a client with no token at all fails fast on each gated
method with an empty effect trace. -/
theorem gated_methods_fail_fast_witness :
    crypto { api_key := Option.none, plan_free := true }
        (fun _ _ => Except.ok (0 : Nat)) ["BTC"] "BRL" =
      (Except.error (ClientError.configError
        "BRAPI_TOKEN não configurado para este endpoint."), []) ∧
    quote_list { api_key := Option.none, plan_free := true }
        (fun _ _ => Except.ok (0 : Nat)) (some "stock") Option.none Option.none
        Option.none (some 1) (some 100) =
      (Except.error (ClientError.configError
        "BRAPI_TOKEN não configurado para este endpoint."), []) := by
  have h := gated_methods_fail_fast
    { api_key := Option.none, plan_free := true }
    (fun _ _ => Except.ok (0 : Nat)) rfl ["BTC"] "BRL" Option.none
    (some "stock") Option.none Option.none Option.none (some 1) (some 100)
  exact ⟨h.1, h.2.2.2.2.2⟩

/-- C10: calling `BrapiClient.quote` with a ticker list whose entries all
strip to the empty string (in particular, the empty list) returns
`{"results": []}` with an empty request trace: no parameters are built, no
rate-limiter permit is acquired, and no upstream request is issued. -/
theorem quote_empty_tickers {ε μ : Type} (c : BrapiClientS)
    (fetch : QuoteRequest → BrapiPayload ε μ) (tickers : List String)
    (h : ∀ t ∈ tickers, (pyStrip t).isEmpty = true)
    (base : Option Params) (range interval : Option String)
    (dividends fundamental : Option Bool) (modules : Option (List String))
    (plan : Option String) :
    quote c fetch tickers base range interval dividends fundamental modules plan =
      (emptyResultsPayload ε μ, []) := by
  have hnorm : normalize_tickers tickers = [] := by
    unfold normalize_tickers
    have : tickers.filter (fun t => !(pyStrip t).isEmpty) = [] := by
      rw [List.filter_eq_nil_iff]
      intro t ht
      simp [h t ht]
    rw [this, List.map_nil]
  simp [quote, hnorm]

/-- Witness for C10: an all-blank ticker list short-circuits. -/
theorem quote_empty_tickers_witness :
    quote { api_key := Option.none, plan_free := true }
        (fun _ => emptyResultsPayload Nat Nat) ["", "   "] Option.none
        Option.none Option.none Option.none Option.none Option.none
        Option.none =
      (emptyResultsPayload Nat Nat, []) :=
  quote_empty_tickers { api_key := Option.none, plan_free := true }
    (fun _ => emptyResultsPayload Nat Nat) ["", "   "] (by decide) Option.none
    Option.none Option.none Option.none Option.none Option.none Option.none

/-- C2 counterexample: the claim that timestamp normalization accepts
ISO-8601 strings fails on the code.  `_parse_timestamp` applies Python
`int()` to its argument, so the spec's own ISO example
`"2024-01-13T00:00:00Z"` raises `ValueError` and yields no date (the
record is dropped), while both integer representations of the instant
yield the canonical date. -/
theorem parse_timestamp_iso_dropped :
    parse_timestamp (TsVal.str "2024-01-13T00:00:00Z") = Option.none ∧
    parse_timestamp (TsVal.int 1705123200) = some 1705123200000 ∧
    parse_timestamp (TsVal.int 1705123200000) = some 1705123200000 ∧
    parse_timestamp (TsVal.str "2024-01-13T00:00:00Z") ≠
      parse_timestamp (TsVal.int 1705123200) := by
  refine ⟨?_, ?_, ?_, ?_⟩ <;> decide

/-- C2 amended: timestamp normalization accepts integer epoch seconds and
integer epoch milliseconds, disambiguated by magnitude (values above
`1e12` are milliseconds), and maps both representations of the same
instant to the same canonical UTC date; ISO-8601 strings (and other
unparsable values) yield no date, and the record is dropped. -/
theorem parse_timestamp_amended (n : Int) (h1 : 1000000000 < n)
    (h2 : n ≤ 253402300799) :
    parse_timestamp (TsVal.int n) = some (n * 1000) ∧
    parse_timestamp (TsVal.int (n * 1000)) = some (n * 1000) ∧
    parse_timestamp (TsVal.str "2024-01-13T00:00:00Z") = Option.none := by
  refine ⟨?_, ?_, by decide⟩
  · have hns : ¬ n > 10 ^ 12 := by norm_num; omega
    simp only [parse_timestamp, pyIntConv, hns, if_false, datetimeMinMs,
      datetimeMaxMs]
    rw [if_pos]
    constructor <;> omega
  · have hms : n * 1000 > 10 ^ 12 := by norm_num; omega
    simp only [parse_timestamp, pyIntConv, hms, if_true, datetimeMinMs,
      datetimeMaxMs]
    rw [if_pos]
    constructor <;> omega

/-- Witness for C2's amended theorem: the spec's instant, 1705123200 epoch
seconds and 1705123200000 epoch milliseconds, normalize to the same
canonical date. -/
theorem parse_timestamp_amended_witness :
    parse_timestamp (TsVal.int 1705123200) = some 1705123200000 ∧
    parse_timestamp (TsVal.int (1705123200 * 1000)) = some (1705123200 * 1000) := by
  have h := parse_timestamp_amended 1705123200 (by norm_num) (by norm_num)
  refine ⟨?_, h.2.1⟩
  have := h.1
  norm_num at this ⊢
  exact this

/-- `optOr` is associative. -/
theorem optOr_assoc {μ : Type} (a b c : Option μ) :
    optOr (optOr a b) c = optOr a (optOr b c) := by
  cases a <;> rfl

/-- `optOr a none = a`. -/
theorem optOr_none {μ : Type} (a : Option μ) : optOr a Option.none = a := by
  cases a <;> rfl

/-- Characterization of the merge loop of `BrapiClient.quote`: starting from
an aggregate whose `results` is `some l`, the fold concatenates every
payload's entity array onto `l` in order, leaves `stocks` untouched, and
resolves each shared metadata key to the aggregate's value if present,
else to the first payload that carries it. -/
theorem merge_fold_spec {ε μ : Type} (ps : List (BrapiPayload ε μ)) :
    ∀ (agg : BrapiPayload ε μ) (l : List ε), agg.results = some l →
      (ps.foldl mergeStep agg).results = some (l ++ ps.flatMap entityList) ∧
      (ps.foldl mergeStep agg).stocks = agg.stocks ∧
      (ps.foldl mergeStep agg).requestedAt =
        optOr agg.requestedAt (firstSome (ps.map BrapiPayload.requestedAt)) ∧
      (ps.foldl mergeStep agg).usedRange =
        optOr agg.usedRange (firstSome (ps.map BrapiPayload.usedRange)) ∧
      (ps.foldl mergeStep agg).usedInterval =
        optOr agg.usedInterval (firstSome (ps.map BrapiPayload.usedInterval)) ∧
      (ps.foldl mergeStep agg).fromCache =
        optOr agg.fromCache (firstSome (ps.map BrapiPayload.fromCache)) ∧
      (ps.foldl mergeStep agg).took =
        optOr agg.took (firstSome (ps.map BrapiPayload.took)) := by
  induction ps with
  | nil =>
    intro agg l hl
    simp [firstSome, optOr_none, hl]
  | cons p ps ih =>
    intro agg l hl
    have hstep : (mergeStep agg p).results = some (l ++ entityList p) := by
      simp [mergeStep, hl]
    obtain ⟨r1, r2, r3, r4, r5, r6, r7⟩ :=
      ih (mergeStep agg p) (l ++ entityList p) hstep
    have hsRA : (mergeStep agg p).requestedAt = optOr agg.requestedAt p.requestedAt := rfl
    have hsUR : (mergeStep agg p).usedRange = optOr agg.usedRange p.usedRange := rfl
    have hsUI : (mergeStep agg p).usedInterval = optOr agg.usedInterval p.usedInterval := rfl
    have hsFC : (mergeStep agg p).fromCache = optOr agg.fromCache p.fromCache := rfl
    have hsTK : (mergeStep agg p).took = optOr agg.took p.took := rfl
    refine ⟨?_, ?_, ?_, ?_, ?_, ?_, ?_⟩
    · rw [List.foldl_cons, r1, List.flatMap_cons, List.append_assoc]
    · rw [List.foldl_cons, r2]
      rfl
    · rw [List.foldl_cons, r3, hsRA, optOr_assoc]
      rfl
    · rw [List.foldl_cons, r4, hsUR, optOr_assoc]
      rfl
    · rw [List.foldl_cons, r5, hsUI, optOr_assoc]
      rfl
    · rw [List.foldl_cons, r6, hsFC, optOr_assoc]
      rfl
    · rw [List.foldl_cons, r7, hsTK, optOr_assoc]
      rfl

/-- A popped key is absent. -/
theorem dictHasKey_dictPop (d : Params) (k : String) :
    dictHasKey (dictPop d k) k = false := by
  simp only [dictHasKey, dictPop, List.any_eq_true, not_exists]
  rw [Bool.eq_false_iff]
  intro h
  obtain ⟨kv, hmem, hk⟩ := List.any_eq_true.mp h
  have := List.of_mem_filter hmem
  simp [of_decide_eq_true hk] at this

/-- Popping one key cannot introduce another. -/
theorem dictHasKey_dictPop_mono (d : Params) (k k2 : String)
    (h : dictHasKey d k2 = false) : dictHasKey (dictPop d k) k2 = false := by
  rw [Bool.eq_false_iff]
  intro hcontra
  obtain ⟨kv, hmem, hk⟩ := List.any_eq_true.mp hcontra
  have hmem2 := List.mem_of_mem_filter hmem
  rw [Bool.eq_false_iff] at h
  exact h (List.any_eq_true.mpr ⟨kv, hmem2, hk⟩)

/-- C6: under the free plan, `BrapiClient.quote` suppresses the
`fundamental` and `modules` parameters, issues exactly one request per
normalized ticker in input order (never a batched request), and merges the
per-ticker payloads by concatenating their entity arrays in input order
while keeping the first-seen value of each shared metadata key
(`requestedAt`, `usedRange`, `usedInterval`, `fromCache`, `took`). -/
theorem quote_free_plan_fanout {ε μ : Type} (c : BrapiClientS)
    (fetch : QuoteRequest → BrapiPayload ε μ) (tickers : List String)
    (base : Option Params) (range interval : Option String)
    (dividends fundamental : Option Bool) (modules : Option (List String))
    (plan : Option String)
    (hfree : is_free_plan c plan = true)
    (hlen : 1 < (normalize_tickers tickers).length) :
    ∃ ep : Params,
      dictHasKey ep "fundamental" = false ∧
      dictHasKey ep "modules" = false ∧
      (quote c fetch tickers base range interval dividends fundamental modules
          plan).2 =
        (normalize_tickers tickers).map (fun t => QuoteRequest.single t ep) ∧
      (quote c fetch tickers base range interval dividends fundamental modules
          plan).1.results =
        some ((normalize_tickers tickers).flatMap
          (fun t => entityList (fetch (QuoteRequest.single t ep)))) ∧
      (quote c fetch tickers base range interval dividends fundamental modules
          plan).1.stocks = Option.none ∧
      (quote c fetch tickers base range interval dividends fundamental modules
          plan).1.requestedAt =
        firstSome ((normalize_tickers tickers).map
          (fun t => (fetch (QuoteRequest.single t ep)).requestedAt)) ∧
      (quote c fetch tickers base range interval dividends fundamental modules
          plan).1.usedRange =
        firstSome ((normalize_tickers tickers).map
          (fun t => (fetch (QuoteRequest.single t ep)).usedRange)) ∧
      (quote c fetch tickers base range interval dividends fundamental modules
          plan).1.usedInterval =
        firstSome ((normalize_tickers tickers).map
          (fun t => (fetch (QuoteRequest.single t ep)).usedInterval)) ∧
      (quote c fetch tickers base range interval dividends fundamental modules
          plan).1.fromCache =
        firstSome ((normalize_tickers tickers).map
          (fun t => (fetch (QuoteRequest.single t ep)).fromCache)) ∧
      (quote c fetch tickers base range interval dividends fundamental modules
          plan).1.took =
        firstSome ((normalize_tickers tickers).map
          (fun t => (fetch (QuoteRequest.single t ep)).took)) := by
  obtain ⟨a, b, rest, hshape⟩ :
      ∃ a b rest, normalize_tickers tickers = a :: b :: rest := by
    match h : normalize_tickers tickers with
    | [] => rw [h] at hlen; simp at hlen
    | [x] => rw [h] at hlen; simp at hlen
    | a :: b :: rest => exact ⟨a, b, rest, rfl⟩
  refine ⟨dictPop (dictPop (build_params base range interval dividends
    fundamental modules false) "fundamental") "modules", ?_, ?_, ?_⟩
  · exact dictHasKey_dictPop_mono _ "modules" "fundamental"
      (dictHasKey_dictPop _ "fundamental")
  · exact dictHasKey_dictPop _ "modules"
  · have hq : quote c fetch tickers base range interval dividends fundamental
        modules plan =
        (merge_quote_payloads (((a :: b :: rest).map
            (fun t => QuoteRequest.single t (dictPop (dictPop (build_params base
              range interval dividends fundamental modules false) "fundamental")
              "modules"))).map fetch),
          (a :: b :: rest).map
            (fun t => QuoteRequest.single t (dictPop (dictPop (build_params base
              range interval dividends fundamental modules false) "fundamental")
              "modules"))) := by
      unfold quote
      rw [hshape, hfree]
      simp only [List.isEmpty_cons, Bool.false_eq_true, if_false, Bool.not_true,
        Bool.false_and, List.map_cons]
      rfl
    obtain ⟨r1, r2, r3, r4, r5, r6, r7⟩ := merge_fold_spec
      (((a :: b :: rest).map (fun t => QuoteRequest.single t (dictPop (dictPop
        (build_params base range interval dividends fundamental modules false)
        "fundamental") "modules"))).map fetch)
      (emptyResultsPayload ε μ) [] rfl
    rw [hshape, hq]
    refine ⟨rfl, ?_, ?_, ?_, ?_, ?_, ?_, ?_⟩
    · simp only [merge_quote_payloads] at r1 ⊢
      rw [r1, List.nil_append, List.map_map, List.flatMap_map]
      rfl
    · simp only [merge_quote_payloads] at r2 ⊢
      rw [r2]
      rfl
    · simp only [merge_quote_payloads] at r3 ⊢
      rw [r3, List.map_map, List.map_map]
      rfl
    · simp only [merge_quote_payloads] at r4 ⊢
      rw [r4, List.map_map, List.map_map]
      rfl
    · simp only [merge_quote_payloads] at r5 ⊢
      rw [r5, List.map_map, List.map_map]
      rfl
    · simp only [merge_quote_payloads] at r6 ⊢
      rw [r6, List.map_map, List.map_map]
      rfl
    · simp only [merge_quote_payloads] at r7 ⊢
      rw [r7, List.map_map, List.map_map]
      rfl

/-- Witness for C6: two tickers under the free plan produce concatenated
entity arrays `[1, 2] ++ [3]` in input order and first-seen metadata
(`requestedAt` from the first payload, `usedRange` from the second, which
is the first to carry it). -/
theorem quote_free_plan_fanout_witness :
    (quote { api_key := some "tok", plan_free := true } fanoutFetchW
        ["petr4", " vale3 "] Option.none (some "3mo") (some "1d") Option.none
        (some true) (some ["summaryProfile"]) Option.none).1.results =
      some [1, 2, 3] ∧
    (quote { api_key := some "tok", plan_free := true } fanoutFetchW
        ["petr4", " vale3 "] Option.none (some "3mo") (some "1d") Option.none
        (some true) (some ["summaryProfile"]) Option.none).1.requestedAt =
      some 11 ∧
    (quote { api_key := some "tok", plan_free := true } fanoutFetchW
        ["petr4", " vale3 "] Option.none (some "3mo") (some "1d") Option.none
        (some true) (some ["summaryProfile"]) Option.none).1.usedRange =
      some 5 ∧
    (quote { api_key := some "tok", plan_free := true } fanoutFetchW
        ["petr4", " vale3 "] Option.none (some "3mo") (some "1d") Option.none
        (some true) (some ["summaryProfile"]) Option.none).1.usedInterval =
      some 7 ∧
    (quote { api_key := some "tok", plan_free := true } fanoutFetchW
        ["petr4", " vale3 "] Option.none (some "3mo") (some "1d") Option.none
        (some true) (some ["summaryProfile"]) Option.none).1.fromCache =
      Option.none ∧
    (quote { api_key := some "tok", plan_free := true } fanoutFetchW
        ["petr4", " vale3 "] Option.none (some "3mo") (some "1d") Option.none
        (some true) (some ["summaryProfile"]) Option.none).1.took =
      some 9 := by
  obtain ⟨ep, _, _, _, h4, _, h6, h7, h8, h9, h10⟩ := quote_free_plan_fanout
    { api_key := some "tok", plan_free := true } fanoutFetchW
    ["petr4", " vale3 "] Option.none (some "3mo") (some "1d") Option.none
    (some true) (some ["summaryProfile"]) Option.none rfl (by decide)
  exact ⟨h4.trans rfl, h6.trans rfl, h7.trans rfl, h8.trans rfl,
    h9.trans rfl, h10.trans rfl⟩

/-- Updating a row whose key matches the incoming bar yields exactly the
incoming bar (every non-key column is overwritten and the key columns
already coincide). -/
theorem setBarFields_eq_of_key {δ : Type} (r b : QuoteOHLCV δ)
    (h : barKey r = barKey b) : setBarFields r b = b := by
  obtain ⟨h1, h2⟩ := Prod.mk.injEq _ _ _ _ ▸ h
  cases r
  cases b
  simp only [setBarFields]
  simp_all [barKey]

/-- The in-place update keeps the row's key. -/
theorem barKey_setBarFields {δ : Type} (r b : QuoteOHLCV δ) :
    barKey (setBarFields r b) = barKey r := rfl

/-- Key presence is monotone under one upsert. -/
theorem hasBar_upsertBar_mono {δ : Type} (db : List (QuoteOHLCV δ))
    (b : QuoteOHLCV δ) (k : String × Int) (h : hasBar db k = true) :
    hasBar (upsertBar db b).1 k = true := by
  unfold upsertBar
  by_cases hk : hasBar db (barKey b) = true
  · simp only [hk, if_true]
    obtain ⟨r, hr, hrk⟩ := List.any_eq_true.mp h
    apply List.any_eq_true.mpr
    refine ⟨if barKey r = barKey b then setBarFields r b else r, List.mem_map_of_mem _ hr, ?_⟩
    by_cases heq : barKey r = barKey b
    · simp only [if_pos heq, barKey_setBarFields]
      exact hrk
    · simp only [if_neg heq]
      exact hrk
  · simp only [hk, if_false]
    obtain ⟨r, hr, hrk⟩ := List.any_eq_true.mp h
    exact List.any_eq_true.mpr ⟨r, List.mem_append_left _ hr, hrk⟩

/-- After upserting `b`, a row with `b`'s key is present. -/
theorem hasBar_upsertBar_self {δ : Type} (db : List (QuoteOHLCV δ))
    (b : QuoteOHLCV δ) : hasBar (upsertBar db b).1 (barKey b) = true := by
  unfold upsertBar
  by_cases hk : hasBar db (barKey b) = true
  · simp only [hk, if_true]
    obtain ⟨r, hr, hrk⟩ := List.any_eq_true.mp hk
    apply List.any_eq_true.mpr
    refine ⟨if barKey r = barKey b then setBarFields r b else r, List.mem_map_of_mem _ hr, ?_⟩
    have : barKey r = barKey b := of_decide_eq_true hrk
    simp [this, barKey_setBarFields]
  · simp only [hk, if_false]
    exact List.any_eq_true.mpr ⟨b, List.mem_append_right _ (List.mem_singleton.mpr rfl), by simp⟩

/-- Key presence is monotone under a whole bar-list upsert. -/
theorem hasBar_upsertList_mono {δ : Type} (bars : List (QuoteOHLCV δ)) :
    ∀ (db : List (QuoteOHLCV δ)) (k : String × Int), hasBar db k = true →
      hasBar (upsertList db bars) k = true := by
  induction bars with
  | nil => intro db k h; exact h
  | cons b bs ih =>
    intro db k h
    exact ih (upsertBar db b).1 k (hasBar_upsertBar_mono db b k h)

/-- Every upserted bar's key is present afterwards. -/
theorem hasBar_upsertList_of_mem {δ : Type} (bars : List (QuoteOHLCV δ)) :
    ∀ (db : List (QuoteOHLCV δ)) (b : QuoteOHLCV δ), b ∈ bars →
      hasBar (upsertList db bars) (barKey b) = true := by
  induction bars with
  | nil => intro db b h; exact absurd h (List.not_mem_nil b)
  | cons x bs ih =>
    intro db b h
    rcases List.mem_cons.mp h with h | h
    · subst h
      exact hasBar_upsertList_mono bs (upsertBar db b).1 (barKey b)
        (hasBar_upsertBar_self db b)
    · exact ih (upsertBar db x).1 b h

/-- Rows keyed like `b` all equal `b` right after upserting `b`. -/
theorem keyRowsAre_upsertBar_self {δ : Type} (db : List (QuoteOHLCV δ))
    (b : QuoteOHLCV δ) : KeyRowsAre (barKey b) b (upsertBar db b).1 := by
  unfold upsertBar
  by_cases hk : hasBar db (barKey b) = true
  · simp only [hk, if_true]
    intro row hrow hkey
    obtain ⟨r, hr, hmap⟩ := List.mem_map.mp hrow
    by_cases heq : barKey r = barKey b
    · rw [← hmap, if_pos heq]
      exact setBarFields_eq_of_key r b heq
    · rw [← hmap, if_neg heq] at hkey ⊢
      exact absurd hkey heq
  · simp only [hk, if_false]
    intro row hrow hkey
    rcases List.mem_append.mp hrow with hrow | hrow
    · exact absurd (List.any_eq_true.mpr ⟨row, hrow, decide_eq_true hkey⟩) hk
    · exact List.mem_singleton.mp hrow

/-- Upserting a bar with a different key preserves `KeyRowsAre`. -/
theorem keyRowsAre_upsertBar_other {δ : Type} (db : List (QuoteOHLCV δ))
    (b x : QuoteOHLCV δ) (k : String × Int) (h : KeyRowsAre k b db)
    (hx : barKey x ≠ k) : KeyRowsAre k b (upsertBar db x).1 := by
  unfold upsertBar
  by_cases hk : hasBar db (barKey x) = true
  · simp only [hk, if_true]
    intro row hrow hkey
    obtain ⟨r, hr, hmap⟩ := List.mem_map.mp hrow
    by_cases heq : barKey r = barKey x
    · rw [← hmap, if_pos heq] at hkey
      rw [barKey_setBarFields] at hkey
      exact absurd (heq.symm.trans hkey) hx
    · rw [← hmap, if_neg heq] at hkey ⊢
      exact h r hr hkey
  · simp only [hk, if_false]
    intro row hrow hkey
    rcases List.mem_append.mp hrow with hrow | hrow
    · exact h row hrow hkey
    · rw [List.mem_singleton.mp hrow] at hkey
      exact absurd hkey hx

/-- Upserting bars none of which carry key `k` preserves `KeyRowsAre`. -/
theorem keyRowsAre_upsertList {δ : Type} (bars : List (QuoteOHLCV δ)) :
    ∀ (db : List (QuoteOHLCV δ)) (b : QuoteOHLCV δ) (k : String × Int),
      KeyRowsAre k b db → (∀ x ∈ bars, barKey x ≠ k) →
      KeyRowsAre k b (upsertList db bars) := by
  induction bars with
  | nil => intro db b k h _; exact h
  | cons x bs ih =>
    intro db b k h hx
    exact ih (upsertBar db x).1 b k
      (keyRowsAre_upsertBar_other db b x k h (hx x (List.mem_cons_self x bs)))
      (fun y hy => hx y (List.mem_cons_of_mem x hy))

/-- Upserting `b` into a store where every `b`-keyed row already equals `b`
is the identity. -/
theorem upsertBar_id_of_keyRows {δ : Type} (d : List (QuoteOHLCV δ))
    (b : QuoteOHLCV δ) (hk : hasBar d (barKey b) = true)
    (h : KeyRowsAre (barKey b) b d) : (upsertBar d b).1 = d := by
  unfold upsertBar
  simp only [hk, if_true]
  have : ∀ r ∈ d, (if barKey r = barKey b then setBarFields r b else r) = r := by
    intro r hr
    by_cases heq : barKey r = barKey b
    · rw [if_pos heq, setBarFields_eq_of_key r b heq]
      exact (h r hr heq).symm
    · rw [if_neg heq]
  rw [List.map_congr_left this]
  simp

/-- Overwriting the non-key columns depends on the target row only through
its key. -/
theorem setBarFields_congr {δ : Type} (r r2 x : QuoteOHLCV δ)
    (h : barKey r = barKey r2) : setBarFields r x = setBarFields r2 x := by
  obtain ⟨h1, h2⟩ := Prod.mk.injEq _ _ _ _ ▸ h
  cases r
  cases r2
  simp_all [setBarFields, barKey]

/-- `Forall₂` extends across appending one related pair. -/
theorem forall₂_append_single {α β : Type} {R : α → β → Prop} {l1 : List α}
    {l2 : List β} (h : List.Forall₂ R l1 l2) {a : α} {b : β} (hab : R a b) :
    List.Forall₂ R (l1 ++ [a]) (l2 ++ [b]) := by
  induction h with
  | nil => exact List.Forall₂.cons hab List.Forall₂.nil
  | cons hpair _ ih => exact List.Forall₂.cons hpair ih

/-- Key-agreeing stores contain exactly the same keys. -/
theorem sameKeyAgree_hasBar {δ : Type} {k : String × Int}
    {d d2 : List (QuoteOHLCV δ)} (h : SameKeyAgree k d d2) :
    ∀ k2, hasBar d k2 = hasBar d2 k2 := by
  induction h with
  | nil => intro _; rfl
  | @cons a b l1 l2 hpair _ ih =>
    intro k2
    show (decide (barKey a = k2) || hasBar l1 k2) =
      (decide (barKey b = k2) || hasBar l2 k2)
    rw [hpair.1, ih k2]

/-- Key-agreeing stores with no `k`-keyed row are equal. -/
theorem sameKeyAgree_eq_of_not_hasBar {δ : Type} {k : String × Int}
    {d d2 : List (QuoteOHLCV δ)} (h : SameKeyAgree k d d2) :
    hasBar d k = false → d = d2 := by
  induction h with
  | nil => intro _; rfl
  | @cons a b l1 l2 hpair _ ih =>
    intro hk
    have hk2 : (decide (barKey a = k) || hasBar l1 k) = false := hk
    rw [Bool.or_eq_false_iff] at hk2
    have hne : barKey a ≠ k := of_decide_eq_false hk2.1
    rw [hpair.2 hne, ih hk2.2]

/-- Upserting a bar keyed off `k` preserves key-agreement. -/
theorem sameKeyAgree_upsertBar {δ : Type} {k : String × Int}
    {d d2 : List (QuoteOHLCV δ)} (h : SameKeyAgree k d d2) (x : QuoteOHLCV δ) :
    SameKeyAgree k (upsertBar d x).1 (upsertBar d2 x).1 := by
  have hhb := sameKeyAgree_hasBar h (barKey x)
  unfold upsertBar
  by_cases hk2 : hasBar d (barKey x) = true
  · rw [hk2] at hhb
    simp only [hk2, hhb.symm, if_true]
    unfold SameKeyAgree at h ⊢
    rw [List.forall₂_map_left_iff, List.forall₂_map_right_iff]
    refine h.imp ?_
    intro r r2 hpair
    by_cases heq : barKey r = barKey x
    · have heq2 : barKey r2 = barKey x := by rw [← hpair.1]; exact heq
      rw [if_pos heq, if_pos heq2]
      refine ⟨by rw [barKey_setBarFields, barKey_setBarFields]; exact hpair.1, ?_⟩
      intro hne
      rw [barKey_setBarFields] at hne
      rw [hpair.2 hne]
    · have heq2 : ¬ barKey r2 = barKey x := fun hc => heq (hpair.1.trans hc)
      rw [if_neg heq, if_neg heq2]
      exact hpair
  · have hdf : hasBar d (barKey x) = false := by
      revert hk2
      cases hasBar d (barKey x) <;> simp
    rw [hdf] at hhb
    rw [if_neg (by rw [hdf]; simp), if_neg (by rw [← hhb]; simp)]
    exact forall₂_append_single h ⟨rfl, fun _ => rfl⟩

/-- On key-agreeing stores, the in-place update map for a bar keyed `k`
produces equal row lists. -/
theorem sameKeyAgree_map_update {δ : Type} {k : String × Int} (x : QuoteOHLCV δ)
    (hx : barKey x = k) :
    ∀ {d d2 : List (QuoteOHLCV δ)}, SameKeyAgree k d d2 →
      List.map (fun r => if barKey r = barKey x then setBarFields r x else r) d =
        List.map (fun r => if barKey r = barKey x then setBarFields r x else r) d2 := by
  intro d d2 h
  induction h with
  | nil => rfl
  | @cons a b l1 l2 hpair _ ih =>
    simp only [List.map_cons]
    rw [ih]
    by_cases heq : barKey a = barKey x
    · have heq2 : barKey b = barKey x := by rw [← hpair.1]; exact heq
      rw [if_pos heq, if_pos heq2, setBarFields_congr a b x hpair.1]
    · have heq2 : ¬ barKey b = barKey x := fun hc => heq (hpair.1.trans hc)
      rw [if_neg heq, if_neg heq2, hpair.2 (by rw [hx] at heq; exact heq)]

/-- Upserting a bar keyed exactly `k` collapses key-agreeing stores to
equal stores. -/
theorem sameKeyAgree_collapse {δ : Type} {k : String × Int}
    {d d2 : List (QuoteOHLCV δ)} (h : SameKeyAgree k d d2) (x : QuoteOHLCV δ)
    (hx : barKey x = k) : (upsertBar d x).1 = (upsertBar d2 x).1 := by
  have hhb := sameKeyAgree_hasBar h (barKey x)
  unfold upsertBar
  by_cases hk2 : hasBar d (barKey x) = true
  · rw [hk2] at hhb
    simp only [hk2, hhb.symm, if_true]
    exact sameKeyAgree_map_update x hx h
  · have hdf : hasBar d (barKey x) = false := by
      revert hk2
      cases hasBar d (barKey x) <;> simp
    rw [hdf] at hhb
    rw [if_neg (by rw [hdf]; simp), if_neg (by rw [← hhb]; simp)]
    rw [sameKeyAgree_eq_of_not_hasBar h (by rw [hx] at hdf; exact hdf)]

/-- A store with `b`'s key present key-agrees (at `b`'s key) with its own
in-place update by `b`. -/
theorem sameKeyAgree_upsertBar_self {δ : Type} (d : List (QuoteOHLCV δ))
    (b : QuoteOHLCV δ) (hk : hasBar d (barKey b) = true) :
    SameKeyAgree (barKey b) d (upsertBar d b).1 := by
  unfold upsertBar
  simp only [hk, if_true]
  unfold SameKeyAgree
  rw [List.forall₂_map_right_iff, List.forall₂_same]
  intro r _
  by_cases heq : barKey r = barKey b
  · exact ⟨by rw [if_pos heq, barKey_setBarFields], fun hne => absurd heq hne⟩
  · exact ⟨by rw [if_neg heq], fun _ => by rw [if_neg heq]⟩

/-- Replaying a bar list over key-agreeing stores yields equal stores once
some replayed bar carries the distinguished key. -/
theorem upsertList_collapse {δ : Type} (bs : List (QuoteOHLCV δ)) :
    ∀ {k : String × Int} {d d2 : List (QuoteOHLCV δ)}, SameKeyAgree k d d2 →
      (∃ x ∈ bs, barKey x = k) → upsertList d bs = upsertList d2 bs := by
  induction bs with
  | nil =>
    intro k d d2 _ hx
    exact absurd hx (by simp)
  | cons x rest ih =>
    intro k d d2 h hx
    by_cases hxk : barKey x = k
    · show upsertList (upsertBar d x).1 rest = upsertList (upsertBar d2 x).1 rest
      rw [sameKeyAgree_collapse h x hxk]
    · obtain ⟨y, hy, hyk⟩ := hx
      rcases List.mem_cons.mp hy with hy | hy
      · exact absurd (hy ▸ hyk) hxk
      · exact ih (sameKeyAgree_upsertBar h x) ⟨y, hy, hyk⟩

/-- Replaying the same bar list a second time leaves the store unchanged. -/
theorem upsertList_absorb {δ : Type} (bars : List (QuoteOHLCV δ)) :
    ∀ db : List (QuoteOHLCV δ),
      upsertList (upsertList db bars) bars = upsertList db bars := by
  induction bars with
  | nil => intro db; rfl
  | cons b bs ih =>
    intro db
    show upsertList (upsertBar (upsertList (upsertBar db b).1 bs) b).1 bs =
      upsertList (upsertBar db b).1 bs
    have hDhas : hasBar (upsertList (upsertBar db b).1 bs) (barKey b) = true :=
      hasBar_upsertList_mono bs (upsertBar db b).1 (barKey b)
        (hasBar_upsertBar_self db b)
    by_cases hhit : ∃ x ∈ bs, barKey x = barKey b
    · have hrel : SameKeyAgree (barKey b) (upsertList (upsertBar db b).1 bs)
          (upsertBar (upsertList (upsertBar db b).1 bs) b).1 :=
        sameKeyAgree_upsertBar_self (upsertList (upsertBar db b).1 bs) b hDhas
      rw [← upsertList_collapse bs hrel hhit]
      exact ih (upsertBar db b).1
    · push_neg at hhit
      have hKRA : KeyRowsAre (barKey b) b (upsertList (upsertBar db b).1 bs) :=
        keyRowsAre_upsertList bs (upsertBar db b).1 b (barKey b)
          (keyRowsAre_upsertBar_self db b) hhit
      rw [upsertBar_id_of_keyRows (upsertList (upsertBar db b).1 bs) b hDhas hKRA]
      exact ih (upsertBar db b).1

/-- Upserting a concatenation is upserting in sequence. -/
theorem upsertList_append {δ : Type} (db : List (QuoteOHLCV δ))
    (xs ys : List (QuoteOHLCV δ)) :
    upsertList db (xs ++ ys) = upsertList (upsertList db xs) ys :=
  List.foldl_append _ _ _ _

/-- The rows produced by the stat-threading upsert loop are the rows-only
fold. -/
theorem upsertBars_fst {δ : Type} (bars : List (QuoteOHLCV δ)) :
    ∀ (db : List (QuoteOHLCV δ)) (s : Stats),
      (upsertBars db bars s).1 = upsertList db bars := by
  induction bars with
  | nil => intro db s; rfl
  | cons b bs ih =>
    intro db s
    show (upsertBars (upsertBar db b).1 bs
      (if (upsertBar db b).2 then { s with inserted := s.inserted + 1 }
       else { s with updated := s.updated + 1 })).1 =
      upsertList (upsertBar db b).1 bs
    exact ih _ _

/-- The rows after processing one ticker are the rows-only upsert of that
ticker's bar contribution. -/
theorem process_ticker_fst {δ μ : Type} (db : List (QuoteOHLCV δ)) (t : String)
    (o : FetchOutcome δ μ) (s : Stats) :
    (process_ticker_ohlcv db t o s).1 = upsertList db (barsOf o t) := by
  cases o with
  | success payload =>
    simp only [process_ticker_ohlcv, barsOf]
    by_cases he : (extract_ohlcv_from_quote payload t).isEmpty = true
    · rw [if_pos he, List.isEmpty_iff.mp he]
      rfl
    · rw [if_neg he]
      exact upsertBars_fst _ db s
  | notFound msg => rfl
  | failure code msg =>
    simp only [process_ticker_ohlcv, barsOf]
    by_cases hc : code = some 404 ∨ pyContains msg "404" = true
    · rw [if_pos hc]
      rfl
    · rw [if_neg hc]
      rfl

/-- `backfill_ohlcv` is the sequential fold over the ticker list. -/
theorem backfill_eq_fold {δ μ : Type} (oracle : String → FetchOutcome δ μ)
    (tickers : List String) (db : List (QuoteOHLCV δ)) :
    backfill_ohlcv oracle tickers db =
      tickers.foldl
        (fun acc t => process_ticker_ohlcv acc.1 t (oracle t) acc.2)
        (db, { processed := 0, inserted := 0, updated := 0, errors := 0,
               total_requested := tickers.length }) := by
  unfold backfill_ohlcv
  by_cases h : tickers.isEmpty = true
  · rw [if_pos h, List.isEmpty_iff.mp h]
    rfl
  · rw [if_neg h]

/-- The rows after a backfill fold are the rows-only upsert of every
contributed bar, in processing order. -/
theorem backfillFold_fst {δ μ : Type} (oracle : String → FetchOutcome δ μ)
    (tickers : List String) :
    ∀ (db : List (QuoteOHLCV δ)) (s : Stats),
      (tickers.foldl
        (fun acc t => process_ticker_ohlcv acc.1 t (oracle t) acc.2)
        (db, s)).1 = upsertList db (allBars oracle tickers) := by
  induction tickers with
  | nil => intro db s; rfl
  | cons t ts ih =>
    intro db s
    rw [List.foldl_cons]
    have hp := ih (process_ticker_ohlcv db t (oracle t) s).1
      (process_ticker_ohlcv db t (oracle t) s).2
    rw [Prod.mk.eta] at hp
    rw [hp, process_ticker_fst db t (oracle t) s]
    show upsertList (upsertList db (barsOf (oracle t) t)) (allBars oracle ts) =
      upsertList db (allBars oracle (t :: ts))
    rw [show allBars oracle (t :: ts) =
      barsOf (oracle t) t ++ allBars oracle ts from List.flatMap_cons t ts _,
      upsertList_append]

/-- The rows after `backfill_ohlcv`. -/
theorem backfill_fst {δ μ : Type} (oracle : String → FetchOutcome δ μ)
    (tickers : List String) (db : List (QuoteOHLCV δ)) :
    (backfill_ohlcv oracle tickers db).1 =
      upsertList db (allBars oracle tickers) := by
  rw [backfill_eq_fold]
  exact backfillFold_fst oracle tickers db _

/-- When every bar's key is already present, the upsert loop performs no
insert. -/
theorem upsertBars_no_insert {δ : Type} (bars : List (QuoteOHLCV δ)) :
    ∀ (db : List (QuoteOHLCV δ)) (s : Stats),
      (∀ b ∈ bars, hasBar db (barKey b) = true) →
      (upsertBars db bars s).2.inserted = s.inserted := by
  induction bars with
  | nil => intro db s _; rfl
  | cons b bs ih =>
    intro db s h
    have hb := h b (List.mem_cons_self b bs)
    have h2 : (upsertBar db b).2 = false := by
      unfold upsertBar
      rw [if_pos hb]
    show (upsertBars (upsertBar db b).1 bs
      (if (upsertBar db b).2 then { s with inserted := s.inserted + 1 }
       else { s with updated := s.updated + 1 })).2.inserted = s.inserted
    rw [h2]
    simp only [Bool.false_eq_true, if_false]
    exact ih (upsertBar db b).1 { s with updated := s.updated + 1 }
      (fun x hx => hasBar_upsertBar_mono db b (barKey x)
        (h x (List.mem_cons_of_mem b hx)))

/-- When every contributed bar's key is already stored, a backfill fold
performs no insert. -/
theorem backfillFold_no_insert {δ μ : Type} (oracle : String → FetchOutcome δ μ)
    (tickers : List String) :
    ∀ (db : List (QuoteOHLCV δ)) (s : Stats),
      (∀ t ∈ tickers, ∀ b ∈ barsOf (oracle t) t, hasBar db (barKey b) = true) →
      (tickers.foldl
        (fun acc t => process_ticker_ohlcv acc.1 t (oracle t) acc.2)
        (db, s)).2.inserted = s.inserted := by
  induction tickers with
  | nil => intro db s _; rfl
  | cons t ts ih =>
    intro db s h
    rw [List.foldl_cons]
    have hstep : (process_ticker_ohlcv db t (oracle t) s).2.inserted = s.inserted := by
      cases ho : oracle t with
      | success payload =>
        simp only [process_ticker_ohlcv]
        by_cases he : (extract_ohlcv_from_quote payload t).isEmpty = true
        · rw [if_pos he]
        · rw [if_neg he]
          show (upsertBars db (extract_ohlcv_from_quote payload t) s).2.inserted = s.inserted
          apply upsertBars_no_insert
          intro b hb
          have := h t (List.mem_cons_self t ts)
          rw [ho] at this
          exact this b hb
      | notFound msg => rfl
      | failure code msg =>
        simp only [process_ticker_ohlcv]
        by_cases hc : code = some 404 ∨ pyContains msg "404" = true
        · rw [if_pos hc]
        · rw [if_neg hc]
    have hrest := ih (process_ticker_ohlcv db t (oracle t) s).1
      (process_ticker_ohlcv db t (oracle t) s).2 ?_
    · rw [Prod.mk.eta] at hrest
      rw [hrest, hstep]
    · intro t2 ht2 b hb
      rw [process_ticker_fst db t (oracle t) s]
      exact hasBar_upsertList_mono _ db (barKey b)
        (h t2 (List.mem_cons_of_mem t ht2) b hb)

/-- C1: running the time-series synchronizer twice with identical
ticker/range/interval input is idempotent — the stored rows after the
second run equal the rows after the first run, the second run performs no
insert (`inserted = 0`), and the row count is unchanged. -/
theorem backfill_idempotent {δ μ : Type} (oracle : String → FetchOutcome δ μ)
    (tickers : List String) (db : List (QuoteOHLCV δ)) :
    (backfill_ohlcv oracle tickers (backfill_ohlcv oracle tickers db).1).1 =
      (backfill_ohlcv oracle tickers db).1 ∧
    (backfill_ohlcv oracle tickers (backfill_ohlcv oracle tickers db).1).2.inserted = 0 ∧
    (backfill_ohlcv oracle tickers (backfill_ohlcv oracle tickers db).1).1.length =
      (backfill_ohlcv oracle tickers db).1.length := by
  have h1 : (backfill_ohlcv oracle tickers (backfill_ohlcv oracle tickers db).1).1 =
      (backfill_ohlcv oracle tickers db).1 := by
    rw [backfill_fst oracle tickers db,
      backfill_fst oracle tickers (upsertList db (allBars oracle tickers))]
    exact upsertList_absorb (allBars oracle tickers) db
  refine ⟨h1, ?_, by rw [h1]⟩
  rw [backfill_eq_fold]
  apply backfillFold_no_insert
  intro t ht b hb
  rw [backfill_fst oracle tickers db]
  exact hasBar_upsertList_of_mem (allBars oracle tickers) db b
    (List.mem_flatMap.mpr ⟨t, ht, hb⟩)

/-- Adding the zero record is the identity. -/
theorem addStats_zero (s : Stats) : addStats s ⟨0, 0, 0, 0, 0⟩ = s := by
  cases s
  simp [addStats]

/-- The statistics threaded through the upsert loop split off additively:
the rows do not depend on the incoming counters, and the counters are the
incoming ones plus the run's own increments. -/
theorem upsertBars_shift {δ : Type} (bars : List (QuoteOHLCV δ)) :
    ∀ (db : List (QuoteOHLCV δ)) (s : Stats),
      upsertBars db bars s =
        ((upsertBars db bars ⟨0, 0, 0, 0, 0⟩).1,
          addStats s (upsertBars db bars ⟨0, 0, 0, 0, 0⟩).2) := by
  induction bars with
  | nil =>
    intro db s
    exact Prod.ext rfl (addStats_zero s).symm
  | cons b bs ih =>
    intro db s
    have hstep : ∀ s2 : Stats, upsertBars db (b :: bs) s2 =
        upsertBars (upsertBar db b).1 bs
          (if (upsertBar db b).2 then { s2 with inserted := s2.inserted + 1 }
           else { s2 with updated := s2.updated + 1 }) := fun _ => rfl
    rw [hstep s, hstep ⟨0, 0, 0, 0, 0⟩]
    by_cases hins : (upsertBar db b).2 = true
    · rw [if_pos hins, if_pos hins]
      rw [ih (upsertBar db b).1 { s with inserted := s.inserted + 1 },
        ih (upsertBar db b).1
          { Stats.mk 0 0 0 0 0 with inserted := (Stats.mk 0 0 0 0 0).inserted + 1 }]
      refine Prod.ext rfl ?_
      generalize (upsertBars (upsertBar db b).1 bs (⟨0, 0, 0, 0, 0⟩ : Stats)).2 = X
      cases s
      cases X
      simp [addStats, Stats.mk.injEq] <;> omega
    · rw [if_neg hins, if_neg hins]
      rw [ih (upsertBar db b).1 { s with updated := s.updated + 1 },
        ih (upsertBar db b).1
          { Stats.mk 0 0 0 0 0 with updated := (Stats.mk 0 0 0 0 0).updated + 1 }]
      refine Prod.ext rfl ?_
      generalize (upsertBars (upsertBar db b).1 bs (⟨0, 0, 0, 0, 0⟩ : Stats)).2 = X
      cases s
      cases X
      simp [addStats, Stats.mk.injEq] <;> omega

/-- The statistics of processing one ticker split off additively from the
incoming counters, and the resulting rows do not depend on them. -/
theorem process_ticker_shift {δ μ : Type} (db : List (QuoteOHLCV δ)) (t : String)
    (o : FetchOutcome δ μ) (s : Stats) :
    process_ticker_ohlcv db t o s =
      ((process_ticker_ohlcv db t o ⟨0, 0, 0, 0, 0⟩).1,
        addStats s (process_ticker_ohlcv db t o ⟨0, 0, 0, 0, 0⟩).2) := by
  cases o with
  | success payload =>
    simp only [process_ticker_ohlcv]
    by_cases he : (extract_ohlcv_from_quote payload t).isEmpty = true
    · rw [if_pos he, if_pos he]
      refine Prod.ext rfl ?_
      cases s
      simp [addStats, Stats.mk.injEq] <;> omega
    · rw [if_neg he, if_neg he]
      rw [upsertBars_shift (extract_ohlcv_from_quote payload t) db s]
      refine Prod.ext rfl ?_
      generalize (upsertBars db (extract_ohlcv_from_quote payload t)
        (⟨0, 0, 0, 0, 0⟩ : Stats)).2 = X
      cases s
      cases X
      simp [addStats, Stats.mk.injEq] <;> omega
  | notFound msg =>
    simp only [process_ticker_ohlcv]
    refine Prod.ext rfl ?_
    cases s
    simp [addStats, Stats.mk.injEq] <;> omega
  | failure code msg =>
    simp only [process_ticker_ohlcv]
    by_cases hc : code = some 404 ∨ pyContains msg "404" = true
    · rw [if_pos hc, if_pos hc]
      refine Prod.ext rfl ?_
      cases s
      simp [addStats, Stats.mk.injEq] <;> omega
    · rw [if_neg hc, if_neg hc]
      refine Prod.ext rfl ?_
      cases s
      simp [addStats, Stats.mk.injEq] <;> omega

/-- The statistics of a backfill fold split off additively from the
incoming counters. -/
theorem backfillFold_stats {δ μ : Type} (oracle : String → FetchOutcome δ μ)
    (tickers : List String) :
    ∀ (db : List (QuoteOHLCV δ)) (s : Stats),
      (tickers.foldl
        (fun acc t => process_ticker_ohlcv acc.1 t (oracle t) acc.2)
        (db, s)).2 =
      addStats s
        (tickers.foldl
          (fun acc t => process_ticker_ohlcv acc.1 t (oracle t) acc.2)
          (db, ⟨0, 0, 0, 0, 0⟩)).2 := by
  induction tickers with
  | nil =>
    intro db s
    exact (addStats_zero s).symm
  | cons t ts ih =>
    intro db s
    rw [List.foldl_cons, List.foldl_cons]
    rw [process_ticker_shift db t (oracle t) s]
    have hz : process_ticker_ohlcv db t (oracle t) (⟨0, 0, 0, 0, 0⟩ : Stats) =
        ((process_ticker_ohlcv db t (oracle t) (⟨0, 0, 0, 0, 0⟩ : Stats)).1,
          (process_ticker_ohlcv db t (oracle t) (⟨0, 0, 0, 0, 0⟩ : Stats)).2) :=
      (Prod.mk.eta).symm
    rw [hz]
    rw [ih (process_ticker_ohlcv db t (oracle t) (⟨0, 0, 0, 0, 0⟩ : Stats)).1
      (addStats s (process_ticker_ohlcv db t (oracle t) (⟨0, 0, 0, 0, 0⟩ : Stats)).2),
      ih (process_ticker_ohlcv db t (oracle t) (⟨0, 0, 0, 0, 0⟩ : Stats)).1
      (process_ticker_ohlcv db t (oracle t) (⟨0, 0, 0, 0, 0⟩ : Stats)).2]
    generalize (process_ticker_ohlcv db t (oracle t) (⟨0, 0, 0, 0, 0⟩ : Stats)).2 = X
    generalize ((ts.foldl
      (fun acc t => process_ticker_ohlcv acc.1 t (oracle t) acc.2)
      ((process_ticker_ohlcv db t (oracle t) (⟨0, 0, 0, 0, 0⟩ : Stats)).1,
        (⟨0, 0, 0, 0, 0⟩ : Stats))).2) = Y
    cases s
    cases X
    cases Y
    simp [addStats, Stats.mk.injEq] <;> omega

/-- `backfill_ohlcv` in terms of the named fold. -/
theorem backfill_eq_backfillFold {δ μ : Type} (oracle : String → FetchOutcome δ μ)
    (tickers : List String) (db : List (QuoteOHLCV δ)) :
    backfill_ohlcv oracle tickers db =
      backfillFold oracle tickers
        (db, ⟨0, 0, 0, 0, tickers.length⟩) :=
  backfill_eq_fold oracle tickers db

/-- The named fold distributes over list append. -/
theorem backfillFold_append {δ μ : Type} (oracle : String → FetchOutcome δ μ)
    (xs ys : List String) (p : List (QuoteOHLCV δ) × Stats) :
    backfillFold oracle (xs ++ ys) p =
      backfillFold oracle ys (backfillFold oracle xs p) :=
  List.foldl_append _ _ _ _

/-- One step of the named fold. -/
theorem backfillFold_cons {δ μ : Type} (oracle : String → FetchOutcome δ μ)
    (t : String) (ts : List String) (p : List (QuoteOHLCV δ) × Stats) :
    backfillFold oracle (t :: ts) p =
      backfillFold oracle ts (process_ticker_ohlcv p.1 t (oracle t) p.2) := rfl

/-- Rows after the named fold, pair-argument form. -/
theorem backfillFold_fst_pair {δ μ : Type} (oracle : String → FetchOutcome δ μ)
    (tickers : List String) (db : List (QuoteOHLCV δ)) (s : Stats) :
    (backfillFold oracle tickers (db, s)).1 =
      upsertList db (allBars oracle tickers) :=
  backfillFold_fst oracle tickers db s

/-- Rows after the named fold, general form. -/
theorem backfillFold_fst_any {δ μ : Type} (oracle : String → FetchOutcome δ μ)
    (tickers : List String) (p : List (QuoteOHLCV δ) × Stats) :
    (backfillFold oracle tickers p).1 =
      upsertList p.1 (allBars oracle tickers) := by
  rw [← Prod.mk.eta (p := p)]
  exact backfillFold_fst oracle tickers p.1 p.2

/-- Statistics after the named fold, pair-argument form. -/
theorem backfillFold_stats_pair {δ μ : Type} (oracle : String → FetchOutcome δ μ)
    (tickers : List String) (db : List (QuoteOHLCV δ)) (s : Stats) :
    (backfillFold oracle tickers (db, s)).2 =
      addStats s (backfillFold oracle tickers (db, ⟨0, 0, 0, 0, 0⟩)).2 :=
  backfillFold_stats oracle tickers db s

/-- Statistics after the named fold, general form. -/
theorem backfillFold_stats_any {δ μ : Type} (oracle : String → FetchOutcome δ μ)
    (tickers : List String) (p : List (QuoteOHLCV δ) × Stats) :
    (backfillFold oracle tickers p).2 =
      addStats p.2 (backfillFold oracle tickers (p.1, ⟨0, 0, 0, 0, 0⟩)).2 := by
  rw [← Prod.mk.eta (p := p)]
  exact backfillFold_stats oracle tickers p.1 p.2

/-- Decomposition of a backfill run around one ticker whose processing
leaves the rows unchanged and adds a fixed stats increment `d`: the run
equals the run without that ticker, with the rows identical and the
statistics shifted by `d` plus one more requested ticker. -/
theorem backfill_skip_decomp {δ μ : Type} (oracle : String → FetchOutcome δ μ)
    (pre suf : List String) (bad : String) (db : List (QuoteOHLCV δ)) (d : Stats)
    (hstep : ∀ (db2 : List (QuoteOHLCV δ)) (s : Stats),
      process_ticker_ohlcv db2 bad (oracle bad) s = (db2, addStats s d)) :
    (backfill_ohlcv oracle (pre ++ bad :: suf) db).1 =
      (backfill_ohlcv oracle (pre ++ suf) db).1 ∧
    (backfill_ohlcv oracle (pre ++ bad :: suf) db).2 =
      addStats (backfill_ohlcv oracle (pre ++ suf) db).2
        (addStats d ⟨0, 0, 0, 0, 1⟩) := by
  rw [backfill_eq_backfillFold, backfill_eq_backfillFold, backfillFold_append,
    backfillFold_append, backfillFold_cons, hstep]
  set s0F : Stats := ⟨0, 0, 0, 0, (pre ++ bad :: suf).length⟩ with hs0F
  set s0C : Stats := ⟨0, 0, 0, 0, (pre ++ suf).length⟩ with hs0C
  set PF := backfillFold oracle pre (db, s0F) with hPF
  set PC := backfillFold oracle pre (db, s0C) with hPC
  have h1 : PF.1 = PC.1 := by
    rw [hPF, hPC, backfillFold_fst_pair, backfillFold_fst_pair]
  constructor
  · have hL : (backfillFold oracle suf (PF.1, addStats PF.2 d)).1 =
        upsertList PF.1 (allBars oracle suf) :=
      backfillFold_fst_pair oracle suf PF.1 (addStats PF.2 d)
    have hR : (backfillFold oracle suf PC).1 =
        upsertList PC.1 (allBars oracle suf) :=
      backfillFold_fst_any oracle suf PC
    rw [hL, hR, h1]
  · have hL2 : (backfillFold oracle suf (PF.1, addStats PF.2 d)).2 =
        addStats (addStats PF.2 d)
          (backfillFold oracle suf (PF.1, (⟨0, 0, 0, 0, 0⟩ : Stats))).2 :=
      backfillFold_stats_pair oracle suf PF.1 (addStats PF.2 d)
    have hR2 : (backfillFold oracle suf PC).2 =
        addStats PC.2
          (backfillFold oracle suf (PC.1, (⟨0, 0, 0, 0, 0⟩ : Stats))).2 :=
      backfillFold_stats_any oracle suf PC
    rw [hL2, hR2, ← h1]
    have hPF2 : PF.2 = addStats s0F (backfillFold oracle pre
        (db, (⟨0, 0, 0, 0, 0⟩ : Stats))).2 := by
      rw [hPF]
      exact backfillFold_stats_pair oracle pre db s0F
    have hPC2 : PC.2 = addStats s0C (backfillFold oracle pre
        (db, (⟨0, 0, 0, 0, 0⟩ : Stats))).2 := by
      rw [hPC]
      exact backfillFold_stats_pair oracle pre db s0C
    rw [hPF2, hPC2, hs0F, hs0C]
    generalize (backfillFold oracle pre (db, (⟨0, 0, 0, 0, 0⟩ : Stats))).2 = W
    generalize (backfillFold oracle suf (PF.1, (⟨0, 0, 0, 0, 0⟩ : Stats))).2 = Z
    cases W
    cases Z
    cases d
    simp only [addStats, Stats.mk.injEq, List.length_append, List.length_cons]
    refine ⟨by omega, by omega, by omega, by omega, by omega⟩

/-- C8: a not-found response for one ticker never aborts a time-series
batch.  When the ticker `bad` yields `NotFoundError`, the whole run equals
the run without `bad` — the remaining tickers are still fetched and their
bars upserted — and the stats record the skipped ticker as processed
(processed+1, with one more requested) with no error; when `bad` instead
fails with any other terminal error (not a 404), the run still never
aborts: the rows again equal the run without `bad` and only `errors` is
incremented. -/
theorem notfound_isolated {δ μ : Type} (oracle : String → FetchOutcome δ μ)
    (pre suf : List String) (bad : String) (db : List (QuoteOHLCV δ)) :
    ((∃ msg, oracle bad = FetchOutcome.notFound msg) →
      (backfill_ohlcv oracle (pre ++ bad :: suf) db).1 =
        (backfill_ohlcv oracle (pre ++ suf) db).1 ∧
      (backfill_ohlcv oracle (pre ++ bad :: suf) db).2 =
        addStats (backfill_ohlcv oracle (pre ++ suf) db).2 ⟨1, 0, 0, 0, 1⟩) ∧
    ((∃ code msg, oracle bad = FetchOutcome.failure code msg ∧
        code ≠ some 404 ∧ pyContains msg "404" = false) →
      (backfill_ohlcv oracle (pre ++ bad :: suf) db).1 =
        (backfill_ohlcv oracle (pre ++ suf) db).1 ∧
      (backfill_ohlcv oracle (pre ++ bad :: suf) db).2 =
        addStats (backfill_ohlcv oracle (pre ++ suf) db).2 ⟨0, 0, 0, 1, 1⟩) := by
  constructor
  · rintro ⟨msg, hmsg⟩
    have hstep : ∀ (db2 : List (QuoteOHLCV δ)) (s : Stats),
        process_ticker_ohlcv db2 bad (oracle bad) s =
          (db2, addStats s ⟨1, 0, 0, 0, 0⟩) := by
      intro db2 s
      rw [hmsg]
      simp only [process_ticker_ohlcv]
      refine Prod.ext rfl ?_
      cases s
      simp [addStats, Stats.mk.injEq]
    have h := backfill_skip_decomp oracle pre suf bad db ⟨1, 0, 0, 0, 0⟩ hstep
    exact ⟨h.1, h.2⟩
  · rintro ⟨code, msg, hmsg, hcode, hsub⟩
    have hstep : ∀ (db2 : List (QuoteOHLCV δ)) (s : Stats),
        process_ticker_ohlcv db2 bad (oracle bad) s =
          (db2, addStats s ⟨0, 0, 0, 1, 0⟩) := by
      intro db2 s
      rw [hmsg]
      simp only [process_ticker_ohlcv]
      rw [if_neg ?_]
      · refine Prod.ext rfl ?_
        cases s
        simp [addStats, Stats.mk.injEq]
      · rintro (h1 | h2)
        · exact hcode h1
        · rw [hsub] at h2
          exact Bool.false_ne_true h2
    have h := backfill_skip_decomp oracle pre suf bad db ⟨0, 0, 0, 1, 0⟩ hstep
    exact ⟨h.1, h.2⟩

/-- Witness for C8: with tickers `["PETR4", "BAD", "VALE3"]` where `BAD`
is not found, the rows equal the run over `["PETR4", "VALE3"]` (both good
tickers still upserted) and the stats show one extra processed ticker; an
always-500 ticker adds one error instead. -/
theorem notfound_isolated_witness :
    (backfill_ohlcv oracleW ["PETR4", "BAD", "VALE3"] []).1 =
      (backfill_ohlcv oracleW ["PETR4", "VALE3"] []).1 ∧
    (backfill_ohlcv oracleW ["PETR4", "BAD", "VALE3"] []).2 =
      addStats (backfill_ohlcv oracleW ["PETR4", "VALE3"] []).2 ⟨1, 0, 0, 0, 1⟩ ∧
    (backfill_ohlcv oracleW ["PETR4", "ERR", "VALE3"] []).1 =
      (backfill_ohlcv oracleW ["PETR4", "VALE3"] []).1 ∧
    (backfill_ohlcv oracleW ["PETR4", "ERR", "VALE3"] []).2 =
      addStats (backfill_ohlcv oracleW ["PETR4", "VALE3"] []).2 ⟨0, 0, 0, 1, 1⟩ := by
  have h1 := (notfound_isolated oracleW ["PETR4"] ["VALE3"] "BAD" []).1
    ⟨"ticker not available", rfl⟩
  have h2 := (notfound_isolated oracleW ["PETR4"] ["VALE3"] "ERR" []).2
    ⟨some 500, "boom", rfl, by decide, by decide⟩
  exact ⟨h1.1, h1.2, h2.1, h2.2⟩
